import Mathlib

/-!
Verification development for the file-list library (file_list.c / file_list.h).

The C sources are shallowly embedded as follows:

* C strings are NUL-free byte lists (`List Nat`, bytes 1..255); the NUL
  terminator is implicit (reading "the byte at an exhausted position" yields 0,
  see `byteAt`).  `tolower`/`isdigit` are the C-locale versions.
* The string comparators `strcmp_default`, `strcmp_natural`, the `qsort`
  callback `qsort_compar` and the dispatch `get_compar_fn` are translated
  line by line from file_list.c.  `qsort` itself is modelled by a
  deterministic comparison sort (`sortByCmp`); for the concrete inputs the
  claims exercise, the comparisons are strict, so any correct `qsort` yields
  the same order.
* The filesystem is a finite forest (`FSForest`): each entry carries the
  `readdir` name and `d_type` hint, the `stat`/`lstat` outcome (`statOk`,
  `stype`, `dev`, `ino`) and its children.  We model the build with `d_type`
  available (FL_NO_D_TYPE undefined).  `opendir` is assumed to succeed and
  heap allocations other than the file-list growth are assumed to succeed
  inside the traversal; the claims settled here do not exercise those paths.
  Hence the only fatal error the embedded traversal can produce is E2BIG
  (list capacity exhausted), reported as the `Bool` component of its result.
* `file_list_create`'s early phases (initial malloc, regcomp, the malloc in
  create_clean_dir, stat-stack creation, stat of the root, the trimming
  realloc) can each fail; `FLWorld` injects those outcomes.  The caller's
  `char ***file_list` is modelled by `OutPtr`: `null` (set to NULL),
  `valid l` (points to a live list `l`), or `dangling` (freed but not reset
  to NULL, as after `free(*file_list); return -1;`).
* `FL_INITIAL_LIST_SIZE` / `FL_MAX_LIST_SIZE` are compile-time configurable
  macros ("Can be changed arbitrarily"), so the embedding takes them as
  parameters `initN` / `maxN`; the shipped values are 512 and 1048576.
* The POSIX regex engine is out of scope (spec: "treated as an opaque
  predicate"): a compiled pattern is an abstract predicate on entry names,
  and `regcomp` success is injected via `FLWorld`.  The flag computation
  feeding `regcomp` (REG_ICASE / REG_EXTENDED) is embedded exactly as
  `regexFlagsOf`.  Likewise `strcoll` is an ambient comparator parameter
  `coll`.
-/

namespace FileList

/-! ### Byte-level primitives -/

/-- The byte a C string pointer reads at the current position: the head of the
remaining list, or the NUL terminator 0 when the list is exhausted. -/
def byteAt (l : List Nat) : Nat := l.headD 0

/-- C-locale `tolower` on a byte value. -/
def tolowerB (c : Nat) : Nat := if 65 ≤ c ∧ c ≤ 90 then c + 32 else c

/-- C-locale `isdigit` on a byte value. -/
def isDigitB (c : Nat) : Bool := decide (48 ≤ c) && decide (c ≤ 57)

/-- C `strcmp` on NUL-free byte lists (byte difference at the first mismatch,
the implicit terminator counting as byte 0). -/
def strcmpB : List Nat → List Nat → Int
  | [], [] => 0
  | [], b :: _ => -(b : Int)
  | a :: _, [] => (a : Int)
  | a :: t1, b :: t2 => if a ≠ b then (a : Int) - (b : Int) else strcmpB t1 t2

/-- `*c2 - *c1` at the first position where the two strings differ (0 when no
position differs).  This is the value `temp_ret` holds at the end of the
comparison loops of strcmp_default / strcmp_natural when the strings are
equal under case folding. -/
def firstCaseDiff : List Nat → List Nat → Int
  | a :: t1, b :: t2 => if a ≠ b then (b : Int) - (a : Int) else firstCaseDiff t1 t2
  | _, _ => 0

/-- Reference recursion used to reason about `sdGo` (the loop of
strcmp_default): structurally folds both strings at once. -/
def sdModel : List Nat → List Nat → Int → Int
  | [], [], t => t
  | [], b :: _, _ => -(b : Int)
  | a :: _, [], _ => (a : Int)
  | a :: t1, b :: t2, t =>
    if tolowerB a ≠ tolowerB b then (tolowerB a : Int) - (tolowerB b : Int)
    else sdModel t1 t2 (if a ≠ b ∧ t = 0 then (b : Int) - (a : Int) else t)

/-! ### strcmp_default (file_list.c lines 40-73)

The C function is a do-while loop: the body compares the bytes at the current
position, then both pointers advance and the loop continues while both of the
*new* bytes are non-NUL; afterwards the bytes at the final position are
compared directly.  `sdGo l1 l2 t` is that loop with `l1`, `l2` the string
suffixes at the current position and `t` the pending tie-break `temp_ret`. -/

def sdGo : List Nat → List Nat → Int → Int
  | l1, l2, t =>
    let b1 := byteAt l1
    let b2 := byteAt l2
    if b1 ≠ b2 ∧ tolowerB b1 ≠ tolowerB b2 then
      -- true mismatch: return the case-insensitive ordering immediately
      (tolowerB b1 : Int) - (tolowerB b2 : Int)
    else
      -- equal bytes, or a pure case mismatch recorded in temp_ret (only once)
      let t2 := if b1 ≠ b2 ∧ t = 0 then (b2 : Int) - (b1 : Int) else t
      match l1, l2 with
      | _ :: c1 :: r1, _ :: c2 :: r2 =>
        if c1 ≠ 0 ∧ c2 ≠ 0 then sdGo (c1 :: r1) (c2 :: r2) t2
        else if c1 = c2 then t2 else (c1 : Int) - (c2 : Int)
      | l1x, l2x =>
        if byteAt l1x.tail = byteAt l2x.tail then t2
        else (byteAt l1x.tail : Int) - (byteAt l2x.tail : Int)

/-- strcmp_default: alphabetical order, case-insensitive with a reversed-case
tie-break (file_list.c lines 40-73). -/
def strcmp_default (s1 s2 : List Nat) : Int := sdGo s1 s2 0

/-! ### strcmp_natural (file_list.c lines 76-153) -/

/-- `foldl` evaluation of a decimal digit run, as an unsigned integer. -/
def digitVal (l : List Nat) : Nat := l.foldl (fun acc c => acc * 10 + (c - 48)) 0

/-- Drop the leading zeroes of a digit run, but keep at least its final digit
(the C loop `while (*p1 == '0' && p1 < c1) p1++;` stops at the last digit). -/
def stripRun (r : List Nat) : List Nat :=
  if r.dropWhile (fun c => c = 48) = [] then [48]
  else r.dropWhile (fun c => c = 48)

/-- Byte difference `*p1 - *p2` at the first mismatching position of two
digit runs (0 if none mismatches). -/
def firstDiffB : List Nat → List Nat → Int
  | a :: t1, b :: t2 => if a ≠ b then (a : Int) - (b : Int) else firstDiffB t1 t2
  | _, _ => 0

/-- The loop of strcmp_natural.  When the bytes at the current position are
both digits, the maximal digit runs are compared: first the lengths of the
zero-stripped runs (`len1 - len2`), then the stripped runs byte by byte, then
the total run lengths reversed (`len2 - len1`, "more zeroes goes first");
only a full tie falls through, past the runs.  Otherwise one step of the
strcmp_default loop runs. -/
def snGo (l1 l2 : List Nat) (t : Int) : Int :=
  if hdig : isDigitB (byteAt l1) = true ∧ isDigitB (byteAt l2) = true then
    let r1 := l1.takeWhile isDigitB
    let r2 := l2.takeWhile isDigitB
    let p1 := stripRun r1
    let p2 := stripRun r2
    if p1.length ≠ p2.length then (p1.length : Int) - (p2.length : Int)
    else if firstDiffB p1 p2 ≠ 0 then firstDiffB p1 p2
    else if r1.length ≠ r2.length then (r2.length : Int) - (r1.length : Int)
    else
      let l1t := l1.dropWhile isDigitB
      let l2t := l2.dropWhile isDigitB
      if hcont : byteAt l1t ≠ 0 ∧ byteAt l2t ≠ 0 then snGo l1t l2t t
      else if byteAt l1t = byteAt l2t then t
      else (byteAt l1t : Int) - (byteAt l2t : Int)
  else
    let b1 := byteAt l1
    let b2 := byteAt l2
    if b1 ≠ b2 ∧ tolowerB b1 ≠ tolowerB b2 then
      (tolowerB b1 : Int) - (tolowerB b2 : Int)
    else
      let t2 := if b1 ≠ b2 ∧ t = 0 then (b2 : Int) - (b1 : Int) else t
      if hnz : byteAt l1.tail ≠ 0 ∧ byteAt l2.tail ≠ 0 then snGo l1.tail l2.tail t2
      else if byteAt l1.tail = byteAt l2.tail then t2
      else (byteAt l1.tail : Int) - (byteAt l2.tail : Int)
termination_by l1.length
decreasing_by
  · cases l1 with
    | nil => simp [byteAt, isDigitB] at hdig
    | cons a r =>
      simp only [byteAt, List.headD_cons] at hdig
      rw [List.dropWhile_cons_of_pos hdig.1]
      exact Nat.lt_succ_of_le (List.dropWhile_sublist isDigitB).length_le
  · cases l1 with
    | nil => simp [byteAt] at hnz
    | cons a r => simp

/-- strcmp_natural: natural sort order combined with alphabetical order
(file_list.c lines 76-153). -/
def strcmp_natural (s1 s2 : List Nat) : Int := snGo s1 s2 0

/-! ### qsort callbacks (file_list.c lines 157-216) -/

/-- Split a path at its *last* DIR_SEPARATOR (byte 47, '/'): the directory
part (bytes before it) and the basename (bytes after it).  `none` when the
path holds no separator — there `qsort_compar` would dereference the NULL of
`strrchr` (see the claim about built lists always containing a separator). -/
def splitLast : List Nat → Option (List Nat × List Nat)
  | [] => none
  | c :: rest =>
    match splitLast rest with
    | some (pre, bn) => some (c :: pre, bn)
    | none => if c = 47 then some ([], rest) else none

/-- qsort_compar: compare the directory parts first and the basenames only on
a tie (file_list.c lines 157-178).  The C code temporarily NUL-terminates the
paths at the last separator and restores them; the net effect is this pure
function.  Paths without a separator make the C code crash; the model returns
an arbitrary value (0) there. -/
def qsort_compar (cmp : List Nat → List Nat → Int) (p1 p2 : List Nat) : Int :=
  match splitLast p1, splitLast p2 with
  | some (d1, b1), some (d2, b2) =>
    let result := cmp d1 d2
    if result = 0 then cmp b1 b2 else result
  | _, _ => 0

def qsort_compar_default : List Nat → List Nat → Int := qsort_compar strcmp_default

def qsort_compar_natural : List Nat → List Nat → Int := qsort_compar strcmp_natural

def qsort_compar_ascii : List Nat → List Nat → Int := qsort_compar strcmpB

/-- enum FL_SORT_METHOD (file_list.h). -/
inductive FL_SORT_METHOD where
  | sort_none
  | sort_default
  | sort_natural
  | sort_collate
  | sort_ascii
deriving DecidableEq

/-- get_compar_fn (file_list.c lines 201-216).  `coll` is the ambient
locale-aware `strcoll`. -/
def get_compar_fn (coll : List Nat → List Nat → Int) :
    FL_SORT_METHOD → Option (List Nat → List Nat → Int)
  | .sort_default => some qsort_compar_default
  | .sort_natural => some qsort_compar_natural
  | .sort_collate => some (qsort_compar coll)
  | .sort_ascii => some qsort_compar_ascii
  | .sort_none => none

/-! ### qsort model -/

/-- Insert into a sorted list, before the first element the comparator does
not place strictly earlier. -/
def insertCmp (cmp : List Nat → List Nat → Int) (x : List Nat) :
    List (List Nat) → List (List Nat)
  | [] => [x]
  | y :: ys => if cmp x y ≤ 0 then x :: y :: ys else y :: insertCmp cmp x ys

/-- Deterministic comparison sort standing in for `qsort`. -/
def sortByCmp (cmp : List Nat → List Nat → Int) : List (List Nat) → List (List Nat)
  | [] => []
  | x :: xs => insertCmp cmp x (sortByCmp cmp xs)

/-! ### Flag and type constants (file_list.h) -/

def FL_UNKNOWN : Nat := 1
def FL_FIFO : Nat := 2
def FL_CHR : Nat := 4
def FL_DIR : Nat := 8
def FL_BLK : Nat := 16
def FL_REG : Nat := 32
def FL_LNK : Nat := 64
def FL_SOCK : Nat := 128

def FL_FOLLOW_LINKS : Nat := 1
def FL_DIR_SEP : Nat := 2
def FL_REGEX_CASE : Nat := 4
def FL_REGEX_BASIC : Nat := 8
def FL_XDEV : Nat := 16

def FL_INITIAL_LIST_SIZE : Nat := 512
def FL_MAX_LIST_SIZE : Nat := 1048576

/-- The regcomp flag computation of file_list_create (file_list.c lines
633-640), as the pair (REG_EXTENDED set?, REG_ICASE set?).  REG_NOSUB is
always set and not modelled.  Note the `if (flags)` guard: with `flags == 0`
neither REG_EXTENDED nor REG_ICASE is set. -/
def regexFlagsOf (flags : Nat) : Bool × Bool :=
  if flags ≠ 0 then
    (decide (flags &&& FL_REGEX_BASIC = 0), decide (flags &&& FL_REGEX_CASE = 0))
  else (false, false)

/-! ### The growable list (file_list.c lines 364-400) -/

/-- The intermediate file list: collected paths plus the allocated capacity
(`*size` is `list.length`, `*max_size` is `cap`). -/
structure FLState where
  list : List (List Nat)
  cap : Nat
deriving DecidableEq

/-- file_list_add: append one path, doubling the capacity when full with a
clamp to the maximum size `maxN`; `none` is the E2BIG failure when the list
already holds `maxN` elements.  (The C overflow check `new_size < *size`
cannot trigger over `Nat`; `realloc` is assumed to succeed.) -/
def file_list_add (maxN : Nat) (st : FLState) (path : List Nat) : Option FLState :=
  if st.list.length = st.cap then
    if st.list.length = maxN then none
    else
      let newSize := st.cap * 2
      let cap2 := if newSize > maxN then maxN else newSize
      some ⟨st.list ++ [path], cap2⟩
  else some ⟨st.list ++ [path], st.cap⟩

/-- Well-formedness of a list state: at most `maxN` slots, a positive
capacity, no more elements than slots.  Holds for the initial state
(`FL_INITIAL_LIST_SIZE ≤ FL_MAX_LIST_SIZE`) and is preserved by adds. -/
def WfState (maxN : Nat) (st : FLState) : Prop :=
  st.list.length ≤ st.cap ∧ st.cap ≤ maxN ∧ 1 ≤ st.cap

/-! ### The filesystem model and the traversal (file_list.c lines 423-587) -/

/-- One directory entry: the `readdir` name and `d_type`, and the outcome of
the `stat`/`lstat` the traversal would issue for it (`statOk` false = the
call fails; `stype` = `sb.st_mode >> 12 & 017`; `dev`/`ino` identify the
file for loop detection and FL_XDEV). -/
structure FLEntryInfo where
  name : List Nat
  dtype : Nat
  statOk : Bool
  stype : Nat
  dev : Nat
  ino : Nat
deriving DecidableEq

/-- A finite directory forest: `cons e children rest` is the entry `e` (whose
directory contents, if any, are `children`) followed by the remaining entries
`rest` of the same directory, in `readdir` order. -/
inductive FSForest where
  | nil : FSForest
  | cons (e : FLEntryInfo) (children : FSForest) (rest : FSForest) : FSForest
deriving DecidableEq

/-- The per-call configuration: the file-type lookup array, the compiled name
pattern (an abstract predicate; `none` when no pattern was given), and the
behaviour flags. -/
structure FLCfg where
  typeArr : Nat → Bool
  pattern : Option (List Nat → Bool)
  flags : Nat

/-- The `.` / `..` skip (file_list.c lines 457-464). -/
def isDotName (name : List Nat) : Bool := decide (name = [46]) || decide (name = [46, 46])

/-- Whether the traversal calls stat/lstat for an entry instead of trusting
`d_type` (file_list.c lines 471-478): for DT_DIR (4), DT_UNKNOWN (0), and
DT_LNK (10) when FL_FOLLOW_LINKS is set. -/
def needStatB (flags : Nat) (dtype : Nat) : Bool :=
  decide (dtype = 4) || decide (dtype = 0) ||
    (decide (dtype = 10) && decide (flags &&& FL_FOLLOW_LINKS ≠ 0))

/-- The entry's resolved type (file_list.c lines 470-498): the stat result
when stat is consulted (`none` when that stat fails — the entry is skipped),
the `d_type` hint otherwise. -/
def entryType (flags : Nat) (e : FLEntryInfo) : Option Nat :=
  if needStatB flags e.dtype then
    if e.statOk then some e.stype else none
  else some e.dtype

/-- create_path (file_list.c lines 292-317): join `dir` and `file` with a
DIR_SEPARATOR unless `dir` already ends in one.  (The C code reads
`dir[strlen(dir) - 1]` and is only ever called with non-empty `dir`.) -/
def create_path (dir file : List Nat) : List Nat :=
  if dir.getLast? = some 47 then dir ++ file else dir ++ 47 :: file

/-- The depth passed to a recursive call (file_list.c line 529):
`directory_depth > 0 ? directory_depth - 1 : directory_depth`. -/
def nextDepth (d : Int) : Int := if d > 0 then d - 1 else d

/-- The FL_XDEV rejection test (file_list.c line 513): the flag is set and the
entry's device differs from the device of the traversal root
(`stack->array[0]`, the head of the modelled stack). -/
def xdevSkip (flags : Nat) (stack : List (Nat × Nat)) (dev : Nat) : Bool :=
  decide (flags &&& FL_XDEV ≠ 0) && decide ((stack.headD (0, 0)).1 ≠ dev)

/-- The path an entry contributes to the list, `none` when it is filtered out
(file_list.c lines 541-569): the type must be enabled in the lookup array,
the raw name must match the pattern if one is configured; the contributed
path is directory/name, with a trailing separator for directories under
FL_DIR_SEP. -/
def entryPath (cfg : FLCfg) (directory name : List Nat) (ctype : Nat) :
    Option (List Nat) :=
  if cfg.typeArr ctype = true then
    match cfg.pattern with
    | some m =>
      if m name then
        some (if ctype = 4 ∧ cfg.flags &&& FL_DIR_SEP ≠ 0 then
                create_path directory name ++ [47]
              else create_path directory name)
      else none
    | none =>
      some (if ctype = 4 ∧ cfg.flags &&& FL_DIR_SEP ≠ 0 then
              create_path directory name ++ [47]
            else create_path directory name)
  else none

/-- The collection step for one entry (file_list.c lines 541-580): append the
entry's path, if any, to the list.  `none` is the fatal E2BIG abort of
`file_list_add`. -/
def collectEntry (cfg : FLCfg) (maxN : Nat) (directory name : List Nat)
    (ctype : Nat) (st : FLState) : Option FLState :=
  match entryPath cfg directory name ctype with
  | none => some st
  | some p => file_list_add maxN st p

/-- parse_file_tree (file_list.c lines 423-587).  `stack` is the stat stack:
`(st_dev, st_ino)` of the root at the head, descendants appended at the tail
(`stat_stack_push` appends, `is_directory_loop` scans the whole stack, the
FL_XDEV check reads `stack->array[0]`).  The `Bool` result is the fatal
abort (E2BIG in this model); it propagates immediately, abandoning the rest
of the traversal, and the list state at that moment is kept. -/
def parseForest (cfg : FLCfg) (maxN : Nat) :
    List Nat → Int → List (Nat × Nat) → FLState → FSForest → FLState × Bool
  | _, _, _, st, .nil => (st, false)
  | directory, depth, stack, st, .cons e children rest =>
    if isDotName e.name then parseForest cfg maxN directory depth stack st rest
    else
      match entryType cfg.flags e with
      | none => parseForest cfg maxN directory depth stack st rest
      | some ctype =>
        if depth ≠ 0 ∧ ctype = 4 then
          if (e.dev, e.ino) ∈ stack then
            -- directory loop: skip the entry entirely (not recursed, not added)
            parseForest cfg maxN directory depth stack st rest
          else if xdevSkip cfg.flags stack e.dev then
            -- other file system: not recursed, but still a collection candidate
            match collectEntry cfg maxN directory e.name ctype st with
            | some st2 => parseForest cfg maxN directory depth stack st2 rest
            | none => (st, true)
          else
            match parseForest cfg maxN (create_path directory e.name)
                (nextDepth depth) (stack ++ [(e.dev, e.ino)]) st children with
            | (st2, true) => (st2, true)
            | (st2, false) =>
              match collectEntry cfg maxN directory e.name ctype st2 with
              | some st3 => parseForest cfg maxN directory depth stack st3 rest
              | none => (st2, true)
        else
          match collectEntry cfg maxN directory e.name ctype st with
          | some st2 => parseForest cfg maxN directory depth stack st2 rest
          | none => (st, true)

/-- A single directory scan that never recurses: what parse_file_tree does to
one directory's entries when the depth test fails for every entry. -/
def scanFlat (cfg : FLCfg) (maxN : Nat) :
    List Nat → FLState → FSForest → FLState × Bool
  | _, st, .nil => (st, false)
  | directory, st, .cons e _children rest =>
    if isDotName e.name then scanFlat cfg maxN directory st rest
    else
      match entryType cfg.flags e with
      | none => scanFlat cfg maxN directory st rest
      | some ctype =>
        match collectEntry cfg maxN directory e.name ctype st with
        | some st2 => scanFlat cfg maxN directory st2 rest
        | none => (st, true)

/-- The full collection the traversal would produce with an unbounded list:
the paths of the accepted entries in traversal order.  Mirrors `parseForest`
without the capacity bookkeeping. -/
def pathsOf (cfg : FLCfg) : List Nat → Int → List (Nat × Nat) → FSForest → List (List Nat)
  | _, _, _, .nil => []
  | directory, depth, stack, .cons e children rest =>
    if isDotName e.name then pathsOf cfg directory depth stack rest
    else
      match entryType cfg.flags e with
      | none => pathsOf cfg directory depth stack rest
      | some ctype =>
        if depth ≠ 0 ∧ ctype = 4 then
          if (e.dev, e.ino) ∈ stack then pathsOf cfg directory depth stack rest
          else if xdevSkip cfg.flags stack e.dev then
            (entryPath cfg directory e.name ctype).toList ++
              pathsOf cfg directory depth stack rest
          else
            pathsOf cfg (create_path directory e.name) (nextDepth depth)
                (stack ++ [(e.dev, e.ino)]) children ++
              (entryPath cfg directory e.name ctype).toList ++
              pathsOf cfg directory depth stack rest
        else
          (entryPath cfg directory e.name ctype).toList ++
            pathsOf cfg directory depth stack rest

/-! ### file_list_create and file_list_merge (file_list.c lines 591-769) -/

/-- The separator-collapsing loop of create_clean_dir (file_list.c lines
334-352), with its `prev_char_is_separator` flag. -/
def collapseSeps (prevSep : Bool) : List Nat → List Nat
  | [] => []
  | c :: rest =>
    if c = 47 then
      if prevSep then collapseSeps true rest
      else 47 :: collapseSeps true rest
    else c :: collapseSeps false rest

/-- The trailing-separator strip of create_clean_dir (file_list.c lines
353-355): remove trailing separators but never the first character. -/
def dropTrailingSeps (l : List Nat) : List Nat :=
  let r := (l.reverse.dropWhile (fun c => c = 47)).reverse
  if r = [] then l.take 1 else r

/-- The cleaned directory string create_clean_dir builds. -/
def cleanOf (dir : List Nat) : List Nat := dropTrailingSeps (collapseSeps false dir)

/-- create_clean_dir (file_list.c lines 321-358): `none` for a NULL/empty
directory or when its malloc fails (`allocOk` injects the latter). -/
def create_clean_dir (allocOk : Bool) (dir : List Nat) : Option (List Nat) :=
  if dir = [] then none
  else if allocOk = false then none
  else some (cleanOf dir)

/-- The file-type lookup array built by file_list_create (file_list.c lines
602-627), indexed by `d_type` values. -/
def typeArrOf (file_type : Nat) (i : Nat) : Bool :=
  if file_type = 0 then decide (i ≤ 12)
  else if i = 0 then decide (file_type &&& FL_UNKNOWN ≠ 0)
  else if i = 1 then decide (file_type &&& FL_FIFO ≠ 0)
  else if i = 2 then decide (file_type &&& FL_CHR ≠ 0)
  else if i = 4 then decide (file_type &&& FL_DIR ≠ 0)
  else if i = 6 then decide (file_type &&& FL_BLK ≠ 0)
  else if i = 8 then decide (file_type &&& FL_REG ≠ 0)
  else if i = 10 then decide (file_type &&& FL_LNK ≠ 0)
  else if i = 12 then decide (file_type &&& FL_SOCK ≠ 0)
  else false

/-- The caller's `char ***file_list` after the call: reset to NULL, left
pointing at freed memory, or pointing at a live list. -/
inductive OutPtr where
  | null : OutPtr
  | dangling : OutPtr
  | valid (l : List (List Nat)) : OutPtr
deriving DecidableEq

/-- Outcomes of the fallible steps of file_list_create that the claims
exercise (`true` = the C call succeeds). -/
structure FLWorld where
  initMallocOk : Bool
  regcompOk : Bool
  cleanDirOk : Bool
  stackCreateOk : Bool
  rootStatOk : Bool
  trimOk : Bool
deriving DecidableEq

/-- The start directory as the filesystem sees it: the `stat(dir)` identity
used to seed the stat stack, and its contents. -/
structure FLRoot where
  dev : Nat
  ino : Nat
  entries : FSForest
deriving DecidableEq

/-- The final sorting pass of file_list_create (file_list.c lines 706-708):
sort in place with the comparator selected by the sort method, or leave the
list untouched when `get_compar_fn` yields NULL. -/
def sortPhase (coll : List Nat → List Nat → Int) (sort_method : FL_SORT_METHOD)
    (l : List (List Nat)) : List (List Nat) :=
  match get_compar_fn coll sort_method with
  | some cmp => sortByCmp cmp l
  | none => l

/-- file_list_create (file_list.c lines 591-711).  Result: the C return value
(`-1` or the final count), the caller's list pointer, and whether errno holds
E2BIG from a capacity-exhausted traversal.  In this model the traversal's only
fatal error is E2BIG, so the teardown branch `if (ret && errno != E2BIG)`
(which frees every element and resets `*file_list` to NULL) is never taken;
each modelled early failure instead runs its own cleanup, which frees the
list buffer but leaves `*file_list` dangling. -/
def file_list_create (w : FLWorld) (coll : List Nat → List Nat → Int)
    (file_type : Nat) (pattern : Option (List Nat → Bool)) (dir : List Nat)
    (depth : Int) (flags : Nat) (sort_method : FL_SORT_METHOD)
    (initN maxN : Nat) (root : FLRoot) : Int × OutPtr × Bool :=
  -- *file_list = malloc(...): on failure return -1, *file_list == NULL
  if w.initMallocOk = false then (-1, OutPtr.null, false)
  else
    -- regcomp (with regexFlagsOf flags): free(*file_list); return -1;
    if pattern.isSome ∧ w.regcompOk = false then (-1, OutPtr.dangling, false)
    else
      match create_clean_dir w.cleanDirOk dir with
      | none => (-1, OutPtr.dangling, false)
      | some start_dir =>
        if w.stackCreateOk = false then (-1, OutPtr.dangling, false)
        else if w.rootStatOk = false then (-1, OutPtr.dangling, false)
        else
          let cfg : FLCfg := ⟨typeArrOf file_type, pattern, flags⟩
          let r := parseForest cfg maxN start_dir depth [(root.dev, root.ino)]
              ⟨[], initN⟩ root.entries
          -- trim + NULL-terminate: on realloc failure return -1 with the old
          -- (still live, untrimmed) list in place
          if w.trimOk = false then (-1, OutPtr.valid r.1.list, false)
          else
            (Int.ofNat r.1.list.length,
             OutPtr.valid (sortPhase coll sort_method r.1.list), r.2)

/-- file_list_getsize (file_list.c lines 726-733): scan to the NULL
terminator. -/
def file_list_getsize (l : List (List Nat)) : Nat := l.length

/-- file_list_merge (file_list.c lines 740-769).  Size hints of 0 mean
"count the list yourself"; a non-zero hint is trusted.  Note line 766: the
comparator selected by `get_compar_fn sort_method` is checked for NULL but
`qsort` is invoked with `qsort_compar_default`.  (The `realloc` is assumed
to succeed and the `size_t` overflow check cannot trigger over `Nat`.) -/
def file_list_merge (coll : List Nat → List Nat → Int) (destination : List (List Nat))
    (n_dest : Nat) (source : List (List Nat)) (n_source : Nat)
    (sort_method : FL_SORT_METHOD) : Int × List (List Nat) :=
  let nd := if n_dest = 0 then file_list_getsize destination else n_dest
  let ns := if n_source = 0 then file_list_getsize source else n_source
  let n := nd + ns
  let combined := destination.take nd ++ source.take ns
  match get_compar_fn coll sort_method with
  | some _cmp => (Int.ofNat n, sortByCmp qsort_compar_default combined)
  | none => (Int.ofNat n, combined)

/-- Fixture: a regular-file entry (d_type DT_REG, so no stat is consulted). -/
def exRegFile (name : List Nat) (ino : Nat) : FLEntryInfo := ⟨name, 8, true, 8, 1, ino⟩

/-- Fixture: a flat directory housing six regular files f1..f6. -/
def exSixFiles : FSForest :=
  .cons (exRegFile [102, 49] 11) .nil
    (.cons (exRegFile [102, 50] 12) .nil
      (.cons (exRegFile [102, 51] 13) .nil
        (.cons (exRegFile [102, 52] 14) .nil
          (.cons (exRegFile [102, 53] 15) .nil
            (.cons (exRegFile [102, 54] 16) .nil .nil)))))

/-! ### Theorems -/

/-- C5: each path-aware ordering function compares the directory parts (before
the last separator) with the base comparator first, returns that result when
non-zero, and consults the basenames only on a tie; so paths with differing
directory parts are ordered by those parts alone, whatever their basenames. -/
theorem claim_C5_path_compare_directory_first
    (cmp : List Nat → List Nat → Int) (p1 p2 d1 b1 d2 b2 : List Nat)
    (h1 : splitLast p1 = some (d1, b1)) (h2 : splitLast p2 = some (d2, b2)) :
    qsort_compar cmp p1 p2 = (if cmp d1 d2 = 0 then cmp b1 b2 else cmp d1 d2)
    ∧ (cmp d1 d2 ≠ 0 → qsort_compar cmp p1 p2 = cmp d1 d2) := by
  unfold qsort_compar
  rw [h1, h2]
  constructor
  · by_cases h : cmp d1 d2 = 0 <;> simp [h]
  · intro h
    simp [h]

theorem claim_C5_witness :
    splitLast [97, 47, 98] = some ([97], [98])
    ∧ qsort_compar strcmpB [97, 47, 98] [99, 47, 97] = strcmpB [97] [99] := by
  refine ⟨by decide, ?_⟩
  have h := claim_C5_path_compare_directory_first strcmpB [97, 47, 98] [99, 47, 97]
    [97] [98] [99] [97] (by decide) (by decide)
  exact h.2 (by decide)

/-- C1 (code bug): file_list_merge computes the comparator selected by the
sort method (line 764) but invokes qsort with qsort_compar_default (line 766),
so the combined list is sorted with the default comparator for every non-none
method.  Concretely, merging ["a/B"] with ["a/a"] under FL_SORT_ASCII yields
["a/a","a/B"] (default order), although the selected ASCII path comparator
orders "a/B" strictly before "a/a" and would therefore keep ["a/B","a/a"]. -/
theorem claim_C1_merge_sorts_with_default_comparator :
    file_list_merge strcmpB [[97, 47, 66]] 0 [[97, 47, 97]] 0 .sort_ascii
      = (2, [[97, 47, 97], [97, 47, 66]])
    ∧ qsort_compar_ascii [97, 47, 66] [97, 47, 97] < 0
    ∧ sortByCmp qsort_compar_ascii [[97, 47, 66], [97, 47, 97]]
        = [[97, 47, 66], [97, 47, 97]] :=
  ⟨by decide, by decide, by decide⟩

/-- C2 (code bug): when file_list_create fails at regcomp (an invalid
pattern), the C code runs `free(*file_list); return -1;` — the buffer is
freed but the caller's pointer is not reset to NULL, so the call ends with
the pointer dangling rather than null, contrary to the header's "On all
other errors, the file list is deallocated and set to NULL". -/
theorem claim_C2_create_failure_leaves_pointer_dangling :
    file_list_create ⟨true, false, true, true, true, true⟩ strcmpB 0
        (some (fun _ => true)) [100] (-1) 0 .sort_none 512 1048576 ⟨1, 1, .nil⟩
      = (-1, OutPtr.dangling, false)
    ∧ OutPtr.dangling ≠ OutPtr.null :=
  ⟨by decide, by decide⟩

/-- C3 (code bug): the `if (flags)` guard around the regcomp-flag computation
means a call with `flags == 0` compiles the pattern with neither REG_EXTENDED
nor REG_ICASE — i.e. case-sensitively and in the basic dialect — although any
non-zero flags value with the two regex bits clear yields both. -/
theorem claim_C3_regex_flags_skipped_when_flags_zero :
    regexFlagsOf 0 = (false, false)
    ∧ regexFlagsOf FL_FOLLOW_LINKS = (true, true)
    ∧ regexFlagsOf (FL_REGEX_CASE + FL_REGEX_BASIC) = (false, false) :=
  ⟨by decide, by decide, by decide⟩

/-- C9: during a depth-enabled traversal, a directory entry whose (device,
inode) pair is already on the stat stack is skipped entirely — not descended
into and not appended, whatever the type filter and pattern would say; a
directory rejected only by FL_XDEV is not descended into but still goes
through the filter-and-append step. -/
theorem claim_C9_loop_guard_vs_xdev
    (cfg : FLCfg) (maxN : Nat) (directory : List Nat) (depth : Int)
    (stack : List (Nat × Nat)) (st : FLState) (e : FLEntryInfo)
    (children rest : FSForest)
    (hdot : isDotName e.name = false)
    (htype : entryType cfg.flags e = some 4)
    (hdepth : depth ≠ 0) :
    ((e.dev, e.ino) ∈ stack →
      parseForest cfg maxN directory depth stack st (.cons e children rest)
        = parseForest cfg maxN directory depth stack st rest)
    ∧ ((e.dev, e.ino) ∉ stack → cfg.flags &&& FL_XDEV ≠ 0 →
        (stack.headD (0, 0)).1 ≠ e.dev →
      parseForest cfg maxN directory depth stack st (.cons e children rest)
        = match collectEntry cfg maxN directory e.name 4 st with
          | some st2 => parseForest cfg maxN directory depth stack st2 rest
          | none => (st, true)) := by
  constructor
  · intro hmem
    simp [parseForest, hdot, htype, hdepth, hmem]
  · intro hmem hx hdev
    have hxs : xdevSkip cfg.flags stack e.dev = true := by
      simp only [xdevSkip, Bool.and_eq_true, decide_eq_true_eq]
      exact ⟨hx, hdev⟩
    simp [parseForest, hdot, htype, hdepth, hmem, hxs]

theorem claim_C9_witness :
    parseForest ⟨typeArrOf 0, none, FL_XDEV⟩ 10 [100] (-1) [(1, 1)] ⟨[], 4⟩
        (.cons ⟨[115], 4, true, 4, 1, 1⟩ (.cons ⟨[102], 8, true, 8, 1, 3⟩ .nil .nil) .nil)
      = parseForest ⟨typeArrOf 0, none, FL_XDEV⟩ 10 [100] (-1) [(1, 1)] ⟨[], 4⟩ .nil
    ∧ parseForest ⟨typeArrOf 0, none, FL_XDEV⟩ 10 [100] (-1) [(1, 1)] ⟨[], 4⟩
        (.cons ⟨[115], 4, true, 4, 2, 9⟩ (.cons ⟨[102], 8, true, 8, 2, 3⟩ .nil .nil) .nil)
      = match collectEntry ⟨typeArrOf 0, none, FL_XDEV⟩ 10 [100] [115] 4 ⟨[], 4⟩ with
        | some st2 => parseForest ⟨typeArrOf 0, none, FL_XDEV⟩ 10 [100] (-1) [(1, 1)] st2 .nil
        | none => (⟨[], 4⟩, true) :=
  ⟨(claim_C9_loop_guard_vs_xdev ⟨typeArrOf 0, none, FL_XDEV⟩ 10 [100] (-1) [(1, 1)]
      ⟨[], 4⟩ ⟨[115], 4, true, 4, 1, 1⟩ (.cons ⟨[102], 8, true, 8, 1, 3⟩ .nil .nil) .nil
      (by decide) (by decide) (by decide)).1 (by decide),
   (claim_C9_loop_guard_vs_xdev ⟨typeArrOf 0, none, FL_XDEV⟩ 10 [100] (-1) [(1, 1)]
      ⟨[], 4⟩ ⟨[115], 4, true, 4, 2, 9⟩ (.cons ⟨[102], 8, true, 8, 2, 3⟩ .nil .nil) .nil
      (by decide) (by decide) (by decide)).2 (by decide) (by decide) (by decide)⟩

/-- Depth 0: the traversal degenerates to a single non-recursive scan of the
start directory's entries. -/
theorem parse_depth_zero (cfg : FLCfg) (maxN : Nat) (directory : List Nat)
    (stack : List (Nat × Nat)) (st : FLState) (f : FSForest) :
    parseForest cfg maxN directory 0 stack st f = scanFlat cfg maxN directory st f := by
  induction f generalizing st with
  | nil => rfl
  | cons e children rest ihc ihr =>
    simp only [parseForest, scanFlat]
    by_cases hdot : isDotName e.name
    · simp [hdot, ihr]
    · simp only [hdot, Bool.false_eq_true, if_false]
      cases htype : entryType cfg.flags e with
      | none => simp [ihr]
      | some ctype =>
        have hno : ¬((0 : Int) ≠ 0 ∧ ctype = 4) := by simp
        simp only [hno, if_false]
        cases hc : collectEntry cfg maxN directory e.name ctype st with
        | none => simp [hc]
        | some st2 => simp [hc, ihr]

/-- C8: a depth of 0 turns the traversal into a flat scan of the start
directory (no recursion, though subdirectories can still be listed as
entries); the unlimited sentinel -1 is passed on unchanged to every level
(never reaching the stopping value 0); a positive depth is decremented by
exactly one per directory level descended, as exhibited by the unfolding of
the traversal at a descent-eligible directory entry. -/
theorem claim_C8_depth_semantics :
    (∀ (cfg : FLCfg) (maxN : Nat) (directory : List Nat) (stack : List (Nat × Nat))
        (st : FLState) (f : FSForest),
      parseForest cfg maxN directory 0 stack st f = scanFlat cfg maxN directory st f)
    ∧ nextDepth (-1) = -1
    ∧ (-1 : Int) ≠ 0
    ∧ (∀ d : Int, 0 < d → nextDepth d = d - 1)
    ∧ (∀ (cfg : FLCfg) (maxN : Nat) (directory : List Nat) (depth : Int)
        (stack : List (Nat × Nat)) (st : FLState) (e : FLEntryInfo)
        (children rest : FSForest),
      isDotName e.name = false → entryType cfg.flags e = some 4 → depth ≠ 0 →
      (e.dev, e.ino) ∉ stack → xdevSkip cfg.flags stack e.dev = false →
      parseForest cfg maxN directory depth stack st (.cons e children rest)
        = match parseForest cfg maxN (create_path directory e.name) (nextDepth depth)
              (stack ++ [(e.dev, e.ino)]) st children with
          | (st2, true) => (st2, true)
          | (st2, false) =>
            match collectEntry cfg maxN directory e.name 4 st2 with
            | some st3 => parseForest cfg maxN directory depth stack st3 rest
            | none => (st2, true)) := by
  refine ⟨parse_depth_zero, by decide, by decide, ?_, ?_⟩
  · intro d hd
    simp [nextDepth, hd]
  · intro cfg maxN directory depth stack st e children rest hdot htype hdepth hmem hxs
    simp [parseForest, hdot, htype, hdepth, hmem, hxs]

theorem claim_C8_witness :
    parseForest ⟨typeArrOf 0, none, 0⟩ 10 [100] 0 [(1, 1)] ⟨[], 4⟩
        (.cons ⟨[115], 4, true, 4, 1, 5⟩ (.cons ⟨[102], 8, true, 8, 1, 6⟩ .nil .nil) .nil)
      = scanFlat ⟨typeArrOf 0, none, 0⟩ 10 [100] ⟨[], 4⟩
        (.cons ⟨[115], 4, true, 4, 1, 5⟩ (.cons ⟨[102], 8, true, 8, 1, 6⟩ .nil .nil) .nil)
    ∧ nextDepth 3 = 2
    ∧ parseForest ⟨typeArrOf 0, none, 0⟩ 10 [100] 3 [(1, 1)] ⟨[], 4⟩
        (.cons ⟨[115], 4, true, 4, 1, 5⟩ (.cons ⟨[102], 8, true, 8, 1, 6⟩ .nil .nil) .nil)
      = match parseForest ⟨typeArrOf 0, none, 0⟩ 10 (create_path [100] [115]) (nextDepth 3)
            [(1, 1), (1, 5)] ⟨[], 4⟩ (.cons ⟨[102], 8, true, 8, 1, 6⟩ .nil .nil) with
        | (st2, true) => (st2, true)
        | (st2, false) =>
          match collectEntry ⟨typeArrOf 0, none, 0⟩ 10 [100] [115] 4 st2 with
          | some st3 => parseForest ⟨typeArrOf 0, none, 0⟩ 10 [100] 3 [(1, 1)] st3 .nil
          | none => (st2, true) :=
  ⟨claim_C8_depth_semantics.1 ⟨typeArrOf 0, none, 0⟩ 10 [100] [(1, 1)] ⟨[], 4⟩
      (.cons ⟨[115], 4, true, 4, 1, 5⟩ (.cons ⟨[102], 8, true, 8, 1, 6⟩ .nil .nil) .nil),
   claim_C8_depth_semantics.2.2.2.1 3 (by decide),
   claim_C8_depth_semantics.2.2.2.2 ⟨typeArrOf 0, none, 0⟩ 10 [100] 3 [(1, 1)] ⟨[], 4⟩
      ⟨[115], 4, true, 4, 1, 5⟩ (.cons ⟨[102], 8, true, 8, 1, 6⟩ .nil .nil) .nil
      (by decide) (by decide) (by decide) (by decide) (by decide)⟩

/-! ### The growable list: helper lemmas -/

theorem file_list_add_list (maxN : Nat) (st : FLState) (p : List Nat) (st2 : FLState)
    (h : file_list_add maxN st p = some st2) : st2.list = st.list ++ [p] := by
  unfold file_list_add at h
  split at h
  · split at h
    · exact absurd h (by simp)
    · injection h with h
      subst h
      rfl
  · injection h with h
    subst h
    rfl

theorem file_list_add_none (maxN : Nat) (st : FLState) (p : List Nat)
    (h : file_list_add maxN st p = none) : st.list.length = maxN := by
  unfold file_list_add at h
  split at h
  · split at h
    · assumption
    · exact absurd h (by simp)
  · exact absurd h (by simp)

theorem file_list_add_wf (maxN : Nat) (st : FLState) (p : List Nat) (st2 : FLState)
    (hwf : WfState maxN st) (h : file_list_add maxN st p = some st2) :
    WfState maxN st2 := by
  obtain ⟨hlc, hcm, hc1⟩ := hwf
  unfold file_list_add at h
  split at h
  next heq =>
    split at h
    · exact absurd h (by simp)
    next hne =>
      injection h with h
      subst h
      refine ⟨?_, ?_, ?_⟩ <;> dsimp only <;>
        (try simp only [List.length_append, List.length_singleton]) <;>
        split <;> omega
  next hne =>
    injection h with h
    subst h
    refine ⟨?_, hcm, hc1⟩
    dsimp only
    simp only [List.length_append, List.length_singleton]
    omega

theorem collectEntry_list (cfg : FLCfg) (maxN : Nat) (directory name : List Nat)
    (ctype : Nat) (st st2 : FLState)
    (h : collectEntry cfg maxN directory name ctype st = some st2) :
    st2.list = st.list ++ (entryPath cfg directory name ctype).toList := by
  unfold collectEntry at h
  cases he : entryPath cfg directory name ctype with
  | none =>
    rw [he] at h
    injection h with h
    subst h
    simp
  | some p =>
    rw [he] at h
    rw [file_list_add_list maxN st p st2 h]
    simp

theorem collectEntry_none (cfg : FLCfg) (maxN : Nat) (directory name : List Nat)
    (ctype : Nat) (st : FLState)
    (h : collectEntry cfg maxN directory name ctype st = none) :
    st.list.length = maxN := by
  unfold collectEntry at h
  cases he : entryPath cfg directory name ctype with
  | none =>
    rw [he] at h
    exact absurd h (by simp)
  | some p =>
    rw [he] at h
    exact file_list_add_none maxN st p h

theorem collectEntry_wf (cfg : FLCfg) (maxN : Nat) (directory name : List Nat)
    (ctype : Nat) (st st2 : FLState) (hwf : WfState maxN st)
    (h : collectEntry cfg maxN directory name ctype st = some st2) :
    WfState maxN st2 := by
  unfold collectEntry at h
  cases he : entryPath cfg directory name ctype with
  | none =>
    rw [he] at h
    injection h with h
    subst h
    exact hwf
  | some p =>
    rw [he] at h
    exact file_list_add_wf maxN st p st2 hwf h

/-! ### Paths built by the traversal always contain a separator -/

theorem sep_mem_create_path (dir file : List Nat) : 47 ∈ create_path dir file := by
  unfold create_path
  by_cases h : dir.getLast? = some 47
  · rw [if_pos h]
    exact List.mem_append_left _ (List.mem_of_mem_getLast? h)
  · rw [if_neg h]
    exact List.mem_append_right _ (List.mem_cons_self _ _)

theorem sep_mem_entryPath (cfg : FLCfg) (directory name : List Nat) (ctype : Nat)
    (p : List Nat) (h : entryPath cfg directory name ctype = some p) : 47 ∈ p := by
  have hdec : 47 ∈ (if ctype = 4 ∧ cfg.flags &&& FL_DIR_SEP ≠ 0
      then create_path directory name ++ [47] else create_path directory name) := by
    split
    · exact List.mem_append_left _ (sep_mem_create_path _ _)
    · exact sep_mem_create_path _ _
  unfold entryPath at h
  split at h
  · split at h
    · split at h
      · injection h with h
        rw [← h]
        exact hdec
      · exact absurd h (by simp)
    · injection h with h
      rw [← h]
      exact hdec
  · exact absurd h (by simp)

theorem collectEntry_sep (cfg : FLCfg) (maxN : Nat) (directory name : List Nat)
    (ctype : Nat) (st st2 : FLState)
    (h : collectEntry cfg maxN directory name ctype st = some st2)
    (hinv : ∀ x ∈ st.list, 47 ∈ x) : ∀ x ∈ st2.list, 47 ∈ x := by
  intro x hx
  rw [collectEntry_list cfg maxN directory name ctype st st2 h] at hx
  rcases List.mem_append.mp hx with hx | hx
  · exact hinv x hx
  · cases he : entryPath cfg directory name ctype with
    | none => rw [he] at hx; simp at hx
    | some p =>
      rw [he] at hx
      simp only [Option.toList_some, List.mem_singleton] at hx
      rw [hx]
      exact sep_mem_entryPath cfg directory name ctype p he

/-! ### The traversal master lemma -/

/-- The collect-then-continue step shared by the three traversal branches that
reach the "Add file name to file list" section. -/
theorem master_collect_step (cfg : FLCfg) (maxN : Nat) (directory : List Nat)
    (depth : Int) (stack : List (Nat × Nat)) (name : List Nat) (ctype : Nat)
    (rest : FSForest) (st : FLState) (R : FLState × Bool)
    (hR : R = match collectEntry cfg maxN directory name ctype st with
      | some st2 => parseForest cfg maxN directory depth stack st2 rest
      | none => (st, true))
    (ihr : ∀ st' : FLState,
      (WfState maxN st' →
        WfState maxN (parseForest cfg maxN directory depth stack st' rest).1
        ∧ ((parseForest cfg maxN directory depth stack st' rest).2 = false →
            (parseForest cfg maxN directory depth stack st' rest).1.list
              = st'.list ++ pathsOf cfg directory depth stack rest)
        ∧ ((parseForest cfg maxN directory depth stack st' rest).2 = true →
            (parseForest cfg maxN directory depth stack st' rest).1.list.length = maxN))
      ∧ ((∀ x ∈ st'.list, 47 ∈ x) →
          ∀ x ∈ (parseForest cfg maxN directory depth stack st' rest).1.list, 47 ∈ x)) :
    (WfState maxN st →
      WfState maxN R.1
      ∧ (R.2 = false →
          R.1.list = st.list ++ ((entryPath cfg directory name ctype).toList
            ++ pathsOf cfg directory depth stack rest))
      ∧ (R.2 = true → R.1.list.length = maxN))
    ∧ ((∀ x ∈ st.list, 47 ∈ x) → ∀ x ∈ R.1.list, 47 ∈ x) := by
  cases hcol : collectEntry cfg maxN directory name ctype st with
  | some st2 =>
    rw [hcol] at hR
    subst hR
    constructor
    · intro hwf
      have hw2 := collectEntry_wf cfg maxN directory name ctype st st2 hwf hcol
      have hl2 := collectEntry_list cfg maxN directory name ctype st st2 hcol
      obtain ⟨ih1, ih2, ih3⟩ := (ihr st2).1 hw2
      refine ⟨ih1, ?_, ih3⟩
      intro hfalse
      rw [ih2 hfalse, hl2, List.append_assoc]
    · intro hinv
      exact (ihr st2).2 (collectEntry_sep cfg maxN directory name ctype st st2 hcol hinv)
  | none =>
    rw [hcol] at hR
    subst hR
    constructor
    · intro hwf
      refine ⟨hwf, ?_, ?_⟩
      · intro hfalse
        simp at hfalse
      · intro _
        exact collectEntry_none cfg maxN directory name ctype st hcol
    · intro hinv
      exact hinv

/-- Master lemma about parse_file_tree: starting from a well-formed list state,
(i) the final state is well-formed, (ii) a traversal that does not abort
collects exactly `pathsOf` (appended to the incoming list), (iii) a traversal
that aborts does so because the list reached the maximum size, which the final
list then has exactly; moreover (iv) every collected path contains a
separator when the incoming ones do. -/
theorem parseForest_master (cfg : FLCfg) (maxN : Nat) (f : FSForest) :
    ∀ (directory : List Nat) (depth : Int) (stack : List (Nat × Nat)) (st : FLState),
    (WfState maxN st →
      WfState maxN (parseForest cfg maxN directory depth stack st f).1
      ∧ ((parseForest cfg maxN directory depth stack st f).2 = false →
          (parseForest cfg maxN directory depth stack st f).1.list
            = st.list ++ pathsOf cfg directory depth stack f)
      ∧ ((parseForest cfg maxN directory depth stack st f).2 = true →
          (parseForest cfg maxN directory depth stack st f).1.list.length = maxN))
    ∧ ((∀ x ∈ st.list, 47 ∈ x) →
        ∀ x ∈ (parseForest cfg maxN directory depth stack st f).1.list, 47 ∈ x) := by
  induction f with
  | nil =>
    intro directory depth stack st
    constructor
    · intro hwf
      refine ⟨hwf, ?_, ?_⟩
      · intro _
        simp [parseForest, pathsOf]
      · intro hab
        simp [parseForest] at hab
    · intro hinv
      simpa [parseForest] using hinv
  | cons e children rest ihc ihr =>
    intro directory depth stack st
    by_cases hdot : isDotName e.name = true
    · simp only [parseForest, pathsOf, hdot, if_true]
      exact ihr directory depth stack st
    · simp only [parseForest, pathsOf, if_neg hdot]
      cases htype : entryType cfg.flags e with
      | none =>
        simp only [htype]
        exact ihr directory depth stack st
      | some ctype =>
        simp only [htype]
        by_cases hdc : depth ≠ 0 ∧ ctype = 4
        · simp only [if_pos hdc]
          by_cases hmem : (e.dev, e.ino) ∈ stack
          · simp only [if_pos hmem]
            exact ihr directory depth stack st
          · simp only [if_neg hmem]
            by_cases hxs : xdevSkip cfg.flags stack e.dev = true
            · simp only [hxs, if_true]
              exact master_collect_step cfg maxN directory depth stack e.name ctype
                rest st _ rfl (fun st' => ihr directory depth stack st')
            · simp only [Bool.not_eq_true] at hxs
              simp only [hxs, Bool.false_eq_true, if_false]
              rcases hsub : parseForest cfg maxN (create_path directory e.name)
                  (nextDepth depth) (stack ++ [(e.dev, e.ino)]) st children with ⟨st2, ab⟩
              have ihcc := ihc (create_path directory e.name) (nextDepth depth)
                  (stack ++ [(e.dev, e.ino)]) st
              rw [hsub] at ihcc
              cases ab with
              | true =>
                simp only [hsub]
                constructor
                · intro hwf
                  obtain ⟨ih1, _, ih3⟩ := ihcc.1 hwf
                  refine ⟨ih1, ?_, ?_⟩
                  · intro hfalse
                    simp at hfalse
                  · intro _
                    exact ih3 rfl
                · intro hinv
                  exact ihcc.2 hinv
              | false =>
                simp only [hsub]
                have hstep := master_collect_step cfg maxN directory depth stack e.name
                  ctype rest st2 _ rfl (fun st' => ihr directory depth stack st')
                constructor
                · intro hwf
                  obtain ⟨ihc1, ihc2, _⟩ := ihcc.1 hwf
                  obtain ⟨s1, s2, s3⟩ := hstep.1 ihc1
                  refine ⟨s1, ?_, s3⟩
                  intro hfalse
                  rw [s2 hfalse, ihc2 rfl]
                  simp [List.append_assoc]
                · intro hinv
                  exact hstep.2 (ihcc.2 hinv)
        · simp only [if_neg hdc]
          exact master_collect_step cfg maxN directory depth stack e.name ctype
            rest st _ rfl (fun st' => ihr directory depth stack st')

/-! ### The qsort model permutes its input -/

theorem insertCmp_perm (cmp : List Nat → List Nat → Int) (x : List Nat)
    (l : List (List Nat)) : (insertCmp cmp x l).Perm (x :: l) := by
  induction l with
  | nil => exact List.Perm.refl _
  | cons y ys ih =>
    unfold insertCmp
    split
    · exact List.Perm.refl _
    · exact (ih.cons y).trans (List.Perm.swap x y ys)

theorem sortByCmp_perm (cmp : List Nat → List Nat → Int) (l : List (List Nat)) :
    (sortByCmp cmp l).Perm l := by
  induction l with
  | nil => exact List.Perm.refl _
  | cons x xs ih => exact (insertCmp_perm cmp x _).trans (ih.cons x)

theorem sortPhase_perm (coll : List Nat → List Nat → Int) (sm : FL_SORT_METHOD)
    (l : List (List Nat)) : (sortPhase coll sm l).Perm l := by
  unfold sortPhase
  split
  · exact sortByCmp_perm _ _
  · exact List.Perm.refl _

/-! ### C10: every built path contains a separator -/

theorem splitLast_of_sep (p : List Nat) (h : 47 ∈ p) :
    ∃ d b, splitLast p = some (d, b) := by
  induction p with
  | nil => simp at h
  | cons c restp ih =>
    cases hsl : splitLast restp with
    | some pr =>
      obtain ⟨d, b⟩ := pr
      exact ⟨c :: d, b, by simp [splitLast, hsl]⟩
    | none =>
      have hc : c = 47 := by
        rcases List.mem_cons.mp h with h47 | h47
        · exact h47.symm
        · obtain ⟨d, b, hdb⟩ := ih h47
          rw [hdb] at hsl
          exact absurd hsl (by simp)
      exact ⟨[], restp, by simp [splitLast, hsl, hc]⟩

/-- C10: every path a successful (or capacity-truncated, or trim-failed) call
of file_list_create hands back contains at least one directory separator, so
the split at the last separator that the path-aware comparators perform is
defined for every element of a built list. -/
theorem claim_C10_built_paths_contain_separator
    (w : FLWorld) (coll : List Nat → List Nat → Int) (ft : Nat)
    (pat : Option (List Nat → Bool)) (dir : List Nat) (depth : Int) (flags : Nat)
    (sm : FL_SORT_METHOD) (initN maxN : Nat) (root : FLRoot) (ret : Int)
    (l : List (List Nat)) (sig : Bool)
    (h : file_list_create w coll ft pat dir depth flags sm initN maxN root
      = (ret, OutPtr.valid l, sig)) :
    ∀ p ∈ l, 47 ∈ p ∧ ∃ d b, splitLast p = some (d, b) := by
  have hsep : ∀ p ∈ l, 47 ∈ p := by
    unfold file_list_create at h
    split at h
    · simp at h
    · split at h
      · simp at h
      · split at h
        · simp at h
        next start_dir heq =>
          split at h
          · simp at h
          · split at h
            · simp at h
            · have hinv := (parseForest_master ⟨typeArrOf ft, pat, flags⟩ maxN
                root.entries start_dir depth [(root.dev, root.ino)] ⟨[], initN⟩).2
                (by simp)
              split at h
              · simp only [Prod.mk.injEq, OutPtr.valid.injEq] at h
                rw [← h.2.1]
                exact hinv
              · simp only [Prod.mk.injEq, OutPtr.valid.injEq] at h
                rw [← h.2.1]
                intro p hp
                exact hinv p ((sortPhase_perm coll sm _).mem_iff.mp hp)
  intro p hp
  exact ⟨hsep p hp, splitLast_of_sep p (hsep p hp)⟩

theorem claim_C10_witness :
    47 ∈ [100, 47, 102] ∧ ∃ d b, splitLast [100, 47, 102] = some (d, b) :=
  claim_C10_built_paths_contain_separator ⟨true, true, true, true, true, true⟩
    strcmpB 0 none [100] (-1) 0 .sort_none 512 1048576
    ⟨1, 1, .cons ⟨[102], 8, true, 8, 1, 2⟩ .nil .nil⟩ 1 [[100, 47, 102]] false
    (by decide) [100, 47, 102] (by decide)

/-! ### C4: capacity exhaustion degrades gracefully -/

/-- C4: when the traversal inside file_list_create aborts because the list
reached the maximum element count, the call does not fail: it returns the
count of entries gathered so far (exactly the maximum) together with the
E2BIG signal, and the kept list is trimmed to that exact size and run through
the same sorting pass as on full success (a permutation of the gathered
entries, of length exactly the maximum); moreover a tree contributing maxN+5
accepted entries forces precisely this abort. -/
theorem claim_C4_capacity_exhausted_partial_result
    (coll : List Nat → List Nat → Int) (ft : Nat) (pat : Option (List Nat → Bool))
    (dir : List Nat) (depth : Int) (flags : Nat) (sm : FL_SORT_METHOD)
    (initN maxN : Nat) (root : FLRoot)
    (hi1 : 1 ≤ initN) (hi2 : initN ≤ maxN) (hdir : dir ≠ []) :
    ((parseForest ⟨typeArrOf ft, pat, flags⟩ maxN (cleanOf dir) depth
        [(root.dev, root.ino)] ⟨[], initN⟩ root.entries).2 = true →
      file_list_create ⟨true, true, true, true, true, true⟩ coll ft pat dir depth flags
          sm initN maxN root
        = (Int.ofNat maxN,
           OutPtr.valid (sortPhase coll sm
             (parseForest ⟨typeArrOf ft, pat, flags⟩ maxN (cleanOf dir) depth
               [(root.dev, root.ino)] ⟨[], initN⟩ root.entries).1.list),
           true)
      ∧ (sortPhase coll sm
          (parseForest ⟨typeArrOf ft, pat, flags⟩ maxN (cleanOf dir) depth
            [(root.dev, root.ino)] ⟨[], initN⟩ root.entries).1.list).length = maxN
      ∧ (sortPhase coll sm
          (parseForest ⟨typeArrOf ft, pat, flags⟩ maxN (cleanOf dir) depth
            [(root.dev, root.ino)] ⟨[], initN⟩ root.entries).1.list).Perm
          (parseForest ⟨typeArrOf ft, pat, flags⟩ maxN (cleanOf dir) depth
            [(root.dev, root.ino)] ⟨[], initN⟩ root.entries).1.list)
    ∧ ((pathsOf ⟨typeArrOf ft, pat, flags⟩ (cleanOf dir) depth
          [(root.dev, root.ino)] root.entries).length = maxN + 5 →
        (parseForest ⟨typeArrOf ft, pat, flags⟩ maxN (cleanOf dir) depth
          [(root.dev, root.ino)] ⟨[], initN⟩ root.entries).2 = true) := by
  have hwf0 : WfState maxN ⟨[], initN⟩ := ⟨by simp, hi2, hi1⟩
  have master := (parseForest_master ⟨typeArrOf ft, pat, flags⟩ maxN root.entries
    (cleanOf dir) depth [(root.dev, root.ino)] ⟨[], initN⟩).1 hwf0
  constructor
  · intro hab
    have hlen := master.2.2 hab
    have hcd : create_clean_dir true dir = some (cleanOf dir) := by
      simp [create_clean_dir, hdir]
    constructor
    · simp only [file_list_create, hcd]
      simp [hab, hlen]
    · exact ⟨((sortPhase_perm coll sm _).length_eq).trans hlen, sortPhase_perm coll sm _⟩
  · intro hpaths
    by_contra hab
    rw [Bool.not_eq_true] at hab
    have heq := master.2.1 hab
    have hwff := master.1
    have hle : (parseForest ⟨typeArrOf ft, pat, flags⟩ maxN (cleanOf dir) depth
        [(root.dev, root.ino)] ⟨[], initN⟩ root.entries).1.list.length ≤ maxN :=
      le_trans hwff.1 hwff.2.1
    rw [heq] at hle
    simp only [List.nil_append, List.length_append] at hle
    rw [hpaths] at hle
    omega

theorem claim_C4_witness :
    file_list_create ⟨true, true, true, true, true, true⟩ strcmpB 0 none [100] (-1) 0
        .sort_none 1 1 ⟨1, 1, exSixFiles⟩
      = (Int.ofNat 1,
         OutPtr.valid (sortPhase strcmpB .sort_none
           (parseForest ⟨typeArrOf 0, none, 0⟩ 1 (cleanOf [100]) (-1) [(1, 1)] ⟨[], 1⟩
             exSixFiles).1.list),
         true)
    ∧ (parseForest ⟨typeArrOf 0, none, 0⟩ 1 (cleanOf [100]) (-1) [(1, 1)] ⟨[], 1⟩
        exSixFiles).2 = true :=
  ⟨((claim_C4_capacity_exhausted_partial_result strcmpB 0 none [100] (-1) 0 .sort_none
      1 1 ⟨1, 1, exSixFiles⟩ (by decide) (by decide) (by decide)).1 (by decide)).1,
   (claim_C4_capacity_exhausted_partial_result strcmpB 0 none [100] (-1) 0 .sort_none
      1 1 ⟨1, 1, exSixFiles⟩ (by decide) (by decide) (by decide)).2 (by decide)⟩

/-! ### C6: the default comparator -/

theorem tolowerB_ne_zero {c : Nat} (hc : c ≠ 0) : tolowerB c ≠ 0 := by
  unfold tolowerB
  split
  · omega
  · exact hc

theorem strcmpB_nil_cons (b : Nat) (t2 : List Nat) : strcmpB [] (b :: t2) = -(b : Int) := rfl

theorem strcmpB_cons_nil (a : Nat) (t1 : List Nat) : strcmpB (a :: t1) [] = (a : Int) := rfl

theorem strcmpB_cons_cons (a b : Nat) (t1 t2 : List Nat) :
    strcmpB (a :: t1) (b :: t2)
      = if a ≠ b then (a : Int) - (b : Int) else strcmpB t1 t2 := rfl

theorem sdModel_nil_nil (t : Int) : sdModel [] [] t = t := rfl

theorem sdModel_nil_cons (b : Nat) (t2 : List Nat) (t : Int) :
    sdModel [] (b :: t2) t = -(b : Int) := rfl

theorem sdModel_cons_nil (a : Nat) (t1 : List Nat) (t : Int) :
    sdModel (a :: t1) [] t = (a : Int) := rfl

theorem sdModel_cons_cons (a b : Nat) (t1 t2 : List Nat) (t : Int) :
    sdModel (a :: t1) (b :: t2) t
      = if tolowerB a ≠ tolowerB b then (tolowerB a : Int) - (tolowerB b : Int)
        else sdModel t1 t2 (if a ≠ b ∧ t = 0 then (b : Int) - (a : Int) else t) := rfl

theorem firstCaseDiff_cons_cons (a b : Nat) (t1 t2 : List Nat) :
    firstCaseDiff (a :: t1) (b :: t2)
      = if a ≠ b then (b : Int) - (a : Int) else firstCaseDiff t1 t2 := rfl

theorem sdGo_cons_cons (a b c1 c2 : Nat) (r1 r2 : List Nat) (t : Int) :
    sdGo (a :: c1 :: r1) (b :: c2 :: r2) t =
      if a ≠ b ∧ tolowerB a ≠ tolowerB b then (tolowerB a : Int) - (tolowerB b : Int)
      else
        let t2 := if a ≠ b ∧ t = 0 then (b : Int) - (a : Int) else t
        if c1 ≠ 0 ∧ c2 ≠ 0 then sdGo (c1 :: r1) (c2 :: r2) t2
        else if c1 = c2 then t2 else (c1 : Int) - (c2 : Int) := rfl

theorem sdGo_one_one (a b : Nat) (t : Int) :
    sdGo [a] [b] t =
      if a ≠ b ∧ tolowerB a ≠ tolowerB b then (tolowerB a : Int) - (tolowerB b : Int)
      else if a ≠ b ∧ t = 0 then (b : Int) - (a : Int) else t := rfl

theorem sdGo_one_cons (a b c2 : Nat) (r2 : List Nat) (t : Int) :
    sdGo [a] (b :: c2 :: r2) t =
      if a ≠ b ∧ tolowerB a ≠ tolowerB b then (tolowerB a : Int) - (tolowerB b : Int)
      else if (0 : Nat) = c2 then (if a ≠ b ∧ t = 0 then (b : Int) - (a : Int) else t)
      else ((0 : Nat) : Int) - (c2 : Int) := rfl

theorem sdGo_cons_one (a b c1 : Nat) (r1 : List Nat) (t : Int) :
    sdGo (a :: c1 :: r1) [b] t =
      if a ≠ b ∧ tolowerB a ≠ tolowerB b then (tolowerB a : Int) - (tolowerB b : Int)
      else if c1 = (0 : Nat) then (if a ≠ b ∧ t = 0 then (b : Int) - (a : Int) else t)
      else (c1 : Int) - ((0 : Nat) : Int) := rfl

/-- The loop of strcmp_default computes `sdModel` on non-empty NUL-free
strings. -/
theorem sdGo_eq_sdModel (l1 : List Nat) : ∀ (l2 : List Nat) (t : Int),
    l1 ≠ [] → l2 ≠ [] → (∀ c ∈ l1, c ≠ 0) → (∀ c ∈ l2, c ≠ 0) →
    sdGo l1 l2 t = sdModel l1 l2 t := by
  induction l1 with
  | nil =>
    intro l2 t hne _ _ _
    exact absurd rfl hne
  | cons a t1 ih =>
    intro l2 t _ h2 nz1 nz2
    cases l2 with
    | nil => exact absurd rfl h2
    | cons b t2 =>
      have hfold : tolowerB a = tolowerB b → ¬(a ≠ b ∧ tolowerB a ≠ tolowerB b) :=
        fun h hc => hc.2 h
      have habof : tolowerB a ≠ tolowerB b → a ≠ b :=
        fun h heq => h (congrArg tolowerB heq)
      cases t1 with
      | nil =>
        cases t2 with
        | nil =>
          rw [sdGo_one_one, sdModel_cons_cons, sdModel_nil_nil]
          by_cases hlow : tolowerB a = tolowerB b
          · rw [if_neg (hfold hlow), if_neg (not_not_intro hlow)]
          · rw [if_pos ⟨habof hlow, hlow⟩, if_pos hlow]
        | cons c2 r2 =>
          have hc2 : c2 ≠ 0 := nz2 c2 (by simp)
          rw [sdGo_one_cons, sdModel_cons_cons, sdModel_nil_cons]
          by_cases hlow : tolowerB a = tolowerB b
          · rw [if_neg (hfold hlow), if_neg (not_not_intro hlow),
              if_neg (fun h => hc2 h.symm)]
            simp
          · rw [if_pos ⟨habof hlow, hlow⟩, if_pos hlow]
      | cons c1 r1 =>
        cases t2 with
        | nil =>
          have hc1 : c1 ≠ 0 := nz1 c1 (by simp)
          rw [sdGo_cons_one, sdModel_cons_cons, sdModel_cons_nil]
          by_cases hlow : tolowerB a = tolowerB b
          · rw [if_neg (hfold hlow), if_neg (not_not_intro hlow), if_neg hc1]
            simp
          · rw [if_pos ⟨habof hlow, hlow⟩, if_pos hlow]
        | cons c2 r2 =>
          have hc1 : c1 ≠ 0 := nz1 c1 (by simp)
          have hc2 : c2 ≠ 0 := nz2 c2 (by simp)
          rw [sdGo_cons_cons, sdModel_cons_cons]
          by_cases hlow : tolowerB a = tolowerB b
          · rw [if_neg (hfold hlow), if_neg (not_not_intro hlow)]
            simp only [if_pos (And.intro hc1 hc2)]
            exact ih (c2 :: r2) _ (by simp) (by simp)
              (fun c hc => nz1 c (List.mem_cons_of_mem a hc))
              (fun c hc => nz2 c (List.mem_cons_of_mem b hc))
          · rw [if_pos ⟨habof hlow, hlow⟩, if_pos hlow]

/-- When the case-folded strings differ, `sdModel` has the sign of the folded
byte comparison, whatever the pending tie-break. -/
theorem sdModel_sign (l1 : List Nat) : ∀ (l2 : List Nat) (t : Int),
    l1.map tolowerB ≠ l2.map tolowerB →
    Int.sign (sdModel l1 l2 t)
      = Int.sign (strcmpB (l1.map tolowerB) (l2.map tolowerB)) := by
  induction l1 with
  | nil =>
    intro l2 t hne
    cases l2 with
    | nil => exact absurd rfl hne
    | cons b t2 =>
      rw [sdModel_nil_cons]
      simp only [List.map_nil, List.map_cons]
      rw [strcmpB_nil_cons]
      by_cases hb : b = 0
      · subst hb
        simp [tolowerB]
      · rw [Int.sign_neg, Int.sign_neg, Int.sign_natCast_of_ne_zero hb,
          Int.sign_natCast_of_ne_zero (tolowerB_ne_zero hb)]
  | cons a t1 ih =>
    intro l2 t hne
    cases l2 with
    | nil =>
      rw [sdModel_cons_nil]
      simp only [List.map_cons, List.map_nil]
      rw [strcmpB_cons_nil]
      by_cases ha : a = 0
      · subst ha
        simp [tolowerB]
      · rw [Int.sign_natCast_of_ne_zero ha,
          Int.sign_natCast_of_ne_zero (tolowerB_ne_zero ha)]
    | cons b t2 =>
      rw [sdModel_cons_cons]
      simp only [List.map_cons]
      rw [strcmpB_cons_cons]
      by_cases hlow : tolowerB a = tolowerB b
      · rw [if_neg (not_not_intro hlow), if_neg (not_not_intro hlow)]
        have htl : t1.map tolowerB ≠ t2.map tolowerB := by
          intro h
          exact hne (by rw [List.map_cons, List.map_cons, hlow, h])
        exact ih t2 _ htl
      · rw [if_pos hlow, if_pos hlow]

/-- When the case-folded strings agree, `sdModel` returns the pending
tie-break, or the first case difference if none is pending yet. -/
theorem sdModel_fold_eq (l1 : List Nat) : ∀ (l2 : List Nat) (t : Int),
    l1.map tolowerB = l2.map tolowerB →
    sdModel l1 l2 t = if t = 0 then firstCaseDiff l1 l2 else t := by
  induction l1 with
  | nil =>
    intro l2 t heq
    cases l2 with
    | nil =>
      rw [sdModel_nil_nil]
      by_cases ht : t = 0
      · subst ht
        rfl
      · rw [if_neg ht]
    | cons b t2 => simp at heq
  | cons a t1 ih =>
    intro l2 t heq
    cases l2 with
    | nil => simp at heq
    | cons b t2 =>
      simp only [List.map_cons, List.cons.injEq] at heq
      obtain ⟨hab, htl⟩ := heq
      rw [sdModel_cons_cons, if_neg (not_not_intro hab), ih t2 _ htl,
        firstCaseDiff_cons_cons]
      by_cases hb : a = b
      · subst hb
        simp
      · by_cases ht : t = 0
        · subst ht
          have hba : (b : Int) - (a : Int) ≠ 0 := by
            intro h
            apply hb
            omega
          simp [hb, hba]
        · simp [ht, hb]

/-- `firstCaseDiff` at an explicitly located first difference. -/
theorem firstCaseDiff_at (i : Nat) : ∀ (s1 s2 : List Nat) (a b : Nat),
    s1.take i = s2.take i → s1[i]? = some a → s2[i]? = some b → a ≠ b →
    firstCaseDiff s1 s2 = (b : Int) - (a : Int) := by
  induction i with
  | zero =>
    intro s1 s2 a b _ hg1 hg2 hab
    cases s1 with
    | nil => simp at hg1
    | cons x xs =>
      cases s2 with
      | nil => simp at hg2
      | cons y ys =>
        simp only [List.getElem?_cons_zero, Option.some.injEq] at hg1 hg2
        subst hg1
        subst hg2
        rw [firstCaseDiff_cons_cons, if_pos hab]
  | succ i ih =>
    intro s1 s2 a b htake hg1 hg2 hab
    cases s1 with
    | nil => simp at hg1
    | cons x xs =>
      cases s2 with
      | nil => simp at hg2
      | cons y ys =>
        simp only [List.take_succ_cons, List.cons.injEq] at htake
        simp only [List.getElem?_cons_succ] at hg1 hg2
        rw [firstCaseDiff_cons_cons, if_neg (not_not_intro htake.1)]
        exact ih xs ys a b htake.2 hg1 hg2 hab

/-- `strcmp` of a string against itself extended: the shorter string compares
below by the first extension byte. -/
theorem strcmpB_self_append (l : List Nat) (m : List Nat) (hm : m ≠ []) :
    strcmpB l (l ++ m) = -(m.headD 0 : Int) := by
  induction l with
  | nil =>
    cases m with
    | nil => exact absurd rfl hm
    | cons c r =>
      rw [List.nil_append, strcmpB_nil_cons]
      rfl
  | cons a t ih =>
    rw [List.cons_append, strcmpB_cons_cons, if_neg (not_not_intro rfl)]
    exact ih

/-- C6: the default comparator orders non-empty NUL-free strings
case-insensitively (its sign is the sign of the folded byte comparison); on
strings equal under folding it returns the deferred tie-break, which puts the
string holding the lowercase variant at the first differing position first;
a strict prefix sorts before its extension; and ["FILE","file"] therefore
sorts to ["file","FILE"]. -/
theorem claim_C6_default_comparator (s1 s2 : List Nat) (h1 : s1 ≠ []) (h2 : s2 ≠ [])
    (nz1 : ∀ c ∈ s1, c ≠ 0) (nz2 : ∀ c ∈ s2, c ≠ 0) :
    (s1.map tolowerB ≠ s2.map tolowerB →
      Int.sign (strcmp_default s1 s2)
        = Int.sign (strcmpB (s1.map tolowerB) (s2.map tolowerB)))
    ∧ (s1.map tolowerB = s2.map tolowerB →
        strcmp_default s1 s2 = firstCaseDiff s1 s2)
    ∧ (s1.map tolowerB = s2.map tolowerB →
        ∀ (i : Nat) (a b : Nat), s1.take i = s2.take i →
          s1[i]? = some a → s2[i]? = some b → a ≠ b →
          (strcmp_default s1 s2 < 0 ↔ b < a))
    ∧ ((∃ r, r ≠ [] ∧ s2 = s1 ++ r) → strcmp_default s1 s2 < 0)
    ∧ strcmp_default [102, 105, 108, 101] [70, 73, 76, 69] < 0 := by
  have hbase : strcmp_default s1 s2 = sdModel s1 s2 0 := by
    unfold strcmp_default
    exact sdGo_eq_sdModel s1 s2 0 h1 h2 nz1 nz2
  have hsign : s1.map tolowerB ≠ s2.map tolowerB →
      Int.sign (strcmp_default s1 s2)
        = Int.sign (strcmpB (s1.map tolowerB) (s2.map tolowerB)) := by
    intro hne
    rw [hbase]
    exact sdModel_sign s1 s2 0 hne
  have hfold : s1.map tolowerB = s2.map tolowerB →
      strcmp_default s1 s2 = firstCaseDiff s1 s2 := by
    intro heq
    rw [hbase, sdModel_fold_eq s1 s2 0 heq, if_pos rfl]
  refine ⟨hsign, hfold, ?_, ?_, by decide⟩
  · intro heq i a b htake hg1 hg2 hab
    rw [hfold heq, firstCaseDiff_at i s1 s2 a b htake hg1 hg2 hab]
    omega
  · rintro ⟨r, hr, rfl⟩
    have hrlen : r.length ≠ 0 := by
      simpa [List.length_eq_zero] using hr
    have hne : s1.map tolowerB ≠ (s1 ++ r).map tolowerB := by
      intro h
      have hl := congrArg List.length h
      simp only [List.length_map, List.length_append] at hl
      omega
    have hmr : r.map tolowerB ≠ [] := by
      simpa [List.map_eq_nil_iff] using hr
    have hcmp : strcmpB (s1.map tolowerB) ((s1 ++ r).map tolowerB)
        = -((r.map tolowerB).headD 0 : Int) := by
      rw [List.map_append]
      exact strcmpB_self_append (s1.map tolowerB) (r.map tolowerB) hmr
    have hhead : ((r.map tolowerB).headD 0 : Nat) ≠ 0 := by
      cases r with
      | nil => exact absurd rfl hr
      | cons c rr =>
        simp only [List.map_cons, List.headD_cons]
        exact tolowerB_ne_zero (nz2 c (List.mem_append_right s1 (List.mem_cons_self c rr)))
    have : Int.sign (strcmp_default s1 (s1 ++ r)) = -1 := by
      rw [hsign hne, hcmp, Int.sign_neg, Int.sign_natCast_of_ne_zero hhead]
    exact Int.sign_eq_neg_one_iff_neg.mp this

theorem claim_C6_witness :
    ([102, 105, 108, 101] : List Nat) ≠ []
    ∧ strcmp_default [102, 105, 108, 101] [70, 73, 76, 69]
        = firstCaseDiff [102, 105, 108, 101] [70, 73, 76, 69]
    ∧ strcmp_default [102, 105] [102, 105, 108] < 0 :=
  ⟨by decide,
   (claim_C6_default_comparator [102, 105, 108, 101] [70, 73, 76, 69]
      (by decide) (by decide) (by decide) (by decide)).2.1 (by decide),
   (claim_C6_default_comparator [102, 105] [102, 105, 108]
      (by decide) (by decide) (by decide) (by decide)).2.2.2.1 ⟨[108], by decide, by decide⟩⟩

/-! ### C7: the natural comparator -/

theorem sdGo_cons_nil_step (a c1 : Nat) (r1 : List Nat) (t : Int) :
    sdGo (a :: c1 :: r1) [] t =
      if a ≠ (0 : Nat) ∧ tolowerB a ≠ tolowerB 0 then (tolowerB a : Int) - (tolowerB 0 : Int)
      else if c1 = (0 : Nat) then (if a ≠ (0 : Nat) ∧ t = 0 then ((0 : Nat) : Int) - (a : Int) else t)
      else (c1 : Int) - ((0 : Nat) : Int) := rfl

/-- One iteration of the strcmp_default loop, written uniformly in terms of
`byteAt`. -/
theorem sdGo_step (l1 l2 : List Nat) (t : Int) :
    sdGo l1 l2 t =
      if byteAt l1 ≠ byteAt l2 ∧ tolowerB (byteAt l1) ≠ tolowerB (byteAt l2) then
        (tolowerB (byteAt l1) : Int) - (tolowerB (byteAt l2) : Int)
      else
        if byteAt l1.tail ≠ 0 ∧ byteAt l2.tail ≠ 0 then
          sdGo l1.tail l2.tail
            (if byteAt l1 ≠ byteAt l2 ∧ t = 0 then (byteAt l2 : Int) - (byteAt l1 : Int) else t)
        else if byteAt l1.tail = byteAt l2.tail then
          (if byteAt l1 ≠ byteAt l2 ∧ t = 0 then (byteAt l2 : Int) - (byteAt l1 : Int) else t)
        else (byteAt l1.tail : Int) - (byteAt l2.tail : Int) := by
  cases l1 with
  | nil => cases l2 with
    | nil => rfl
    | cons b t2x => cases t2x with
      | nil => rfl
      | cons c2 r2 => rfl
  | cons a t1 => cases t1 with
    | nil => cases l2 with
      | nil => rfl
      | cons b t2x => cases t2x with
        | nil => rfl
        | cons c2 r2 => rfl
    | cons c1 r1 => cases l2 with
      | nil =>
        rw [sdGo_cons_nil_step]
        simp [byteAt]
      | cons b t2x => cases t2x with
        | nil =>
          rw [sdGo_cons_one]
          simp [byteAt]
        | cons c2 r2 => rfl

/-- The non-digit iteration of the strcmp_natural loop: one strcmp_default
step. -/
theorem snGo_nondigit (l1 l2 : List Nat) (t : Int)
    (h : ¬(isDigitB (byteAt l1) = true ∧ isDigitB (byteAt l2) = true)) :
    snGo l1 l2 t =
      if byteAt l1 ≠ byteAt l2 ∧ tolowerB (byteAt l1) ≠ tolowerB (byteAt l2) then
        (tolowerB (byteAt l1) : Int) - (tolowerB (byteAt l2) : Int)
      else
        if byteAt l1.tail ≠ 0 ∧ byteAt l2.tail ≠ 0 then
          snGo l1.tail l2.tail
            (if byteAt l1 ≠ byteAt l2 ∧ t = 0 then (byteAt l2 : Int) - (byteAt l1 : Int) else t)
        else if byteAt l1.tail = byteAt l2.tail then
          (if byteAt l1 ≠ byteAt l2 ∧ t = 0 then (byteAt l2 : Int) - (byteAt l1 : Int) else t)
        else (byteAt l1.tail : Int) - (byteAt l2.tail : Int) := by
  rw [snGo]
  rw [dif_neg h]
  simp only [dite_eq_ite]

/-- The digit iteration of the strcmp_natural loop: compare the maximal digit
runs, falling through past them only on a full tie. -/
theorem snGo_digit (l1 l2 : List Nat) (t : Int)
    (h : isDigitB (byteAt l1) = true ∧ isDigitB (byteAt l2) = true) :
    snGo l1 l2 t =
      if (stripRun (l1.takeWhile isDigitB)).length ≠ (stripRun (l2.takeWhile isDigitB)).length then
        ((stripRun (l1.takeWhile isDigitB)).length : Int)
          - ((stripRun (l2.takeWhile isDigitB)).length : Int)
      else if firstDiffB (stripRun (l1.takeWhile isDigitB)) (stripRun (l2.takeWhile isDigitB)) ≠ 0 then
        firstDiffB (stripRun (l1.takeWhile isDigitB)) (stripRun (l2.takeWhile isDigitB))
      else if (l1.takeWhile isDigitB).length ≠ (l2.takeWhile isDigitB).length then
        ((l2.takeWhile isDigitB).length : Int) - ((l1.takeWhile isDigitB).length : Int)
      else
        if byteAt (l1.dropWhile isDigitB) ≠ 0 ∧ byteAt (l2.dropWhile isDigitB) ≠ 0 then
          snGo (l1.dropWhile isDigitB) (l2.dropWhile isDigitB) t
        else if byteAt (l1.dropWhile isDigitB) = byteAt (l2.dropWhile isDigitB) then t
        else (byteAt (l1.dropWhile isDigitB) : Int) - (byteAt (l2.dropWhile isDigitB) : Int) := by
  rw [snGo]
  rw [dif_pos h]
  simp only [dite_eq_ite]

theorem isDigitB_iff (c : Nat) : isDigitB c = true ↔ 48 ≤ c ∧ c ≤ 57 := by
  simp [isDigitB]

theorem digitVal_foldl (r : List Nat) : ∀ acc : Nat,
    r.foldl (fun acc c => acc * 10 + (c - 48)) acc = acc * 10 ^ r.length + digitVal r := by
  induction r with
  | nil =>
    intro acc
    simp [digitVal]
  | cons c rr ih =>
    intro acc
    have hv : digitVal (c :: rr) = (c - 48) * 10 ^ rr.length + digitVal rr := by
      show List.foldl _ ((0 : Nat) * 10 + (c - 48)) rr = _
      rw [ih]
      ring_nf
    simp only [List.foldl_cons, List.length_cons]
    rw [ih (acc * 10 + (c - 48)), hv]
    ring

theorem digitVal_cons (c : Nat) (r : List Nat) :
    digitVal (c :: r) = (c - 48) * 10 ^ r.length + digitVal r := by
  show List.foldl _ ((0 : Nat) * 10 + (c - 48)) r = _
  rw [digitVal_foldl]
  ring_nf

theorem digitVal_lt (r : List Nat) (hd : ∀ c ∈ r, isDigitB c = true) :
    digitVal r < 10 ^ r.length := by
  induction r with
  | nil => simp [digitVal]
  | cons c rr ih =>
    have hc := (isDigitB_iff c).mp (hd c (by simp))
    have hrr := ih (fun x hx => hd x (List.mem_cons_of_mem c hx))
    rw [digitVal_cons, List.length_cons]
    calc (c - 48) * 10 ^ rr.length + digitVal rr
        < (c - 48) * 10 ^ rr.length + 10 ^ rr.length := by omega
      _ = (c - 48 + 1) * 10 ^ rr.length := by ring
      _ ≤ 10 * 10 ^ rr.length := Nat.mul_le_mul_right _ (by omega)
      _ = 10 ^ (rr.length + 1) := by ring

theorem digitVal_dropZeros (r : List Nat) :
    digitVal (r.dropWhile (fun c => c = 48)) = digitVal r := by
  induction r with
  | nil => rfl
  | cons c rr ih =>
    by_cases hc : c = 48
    · rw [List.dropWhile_cons_of_pos (by simp [hc]), ih]
      subst hc
      rw [digitVal_cons]
      simp
    · rw [List.dropWhile_cons_of_neg (by simp [hc])]

theorem digitVal_stripRun (r : List Nat) : digitVal (stripRun r) = digitVal r := by
  unfold stripRun
  split
  next h =>
    rw [← digitVal_dropZeros r, h]
    rfl
  next h => exact digitVal_dropZeros r

theorem stripRun_ne_nil (r : List Nat) : stripRun r ≠ [] := by
  unfold stripRun
  split
  · simp
  next h => exact h

theorem dropWhile_head_not (p : Nat → Bool) (r : List Nat) (c : Nat) (d : List Nat)
    (h : r.dropWhile p = c :: d) : p c = false := by
  induction r with
  | nil => simp at h
  | cons x xs ih =>
    by_cases hx : p x = true
    · rw [List.dropWhile_cons_of_pos hx] at h
      exact ih h
    · rw [List.dropWhile_cons_of_neg hx] at h
      injection h with h1 _
      rw [← h1]
      simpa using hx

theorem stripRun_head (r : List Nat) (c : Nat) (d : List Nat)
    (h : stripRun r = c :: d) (hd : d ≠ []) : c ≠ 48 := by
  unfold stripRun at h
  split at h
  · injection h with h1 h2
    exact absurd h2.symm hd
  · have := dropWhile_head_not (fun c => decide (c = 48)) r c d h
    simpa using this

theorem stripRun_digits (r : List Nat) (hd : ∀ c ∈ r, isDigitB c = true) :
    ∀ c ∈ stripRun r, isDigitB c = true := by
  unfold stripRun
  split
  · intro c hc
    simp only [List.mem_singleton] at hc
    subst hc
    decide
  · intro c hc
    exact hd c ((List.dropWhile_sublist _).subset hc)

theorem stripRun_val_lt (r1 r2 : List Nat)
    (hd1 : ∀ c ∈ r1, isDigitB c = true) (hd2 : ∀ c ∈ r2, isDigitB c = true)
    (hlen : (stripRun r1).length < (stripRun r2).length) :
    digitVal r1 < digitVal r2 := by
  cases hp2 : stripRun r2 with
  | nil => exact absurd hp2 (stripRun_ne_nil r2)
  | cons b d2 =>
    rw [hp2, List.length_cons] at hlen
    have h1 : 1 ≤ (stripRun r1).length :=
      List.length_pos.mpr (stripRun_ne_nil r1)
    have hd2ne : d2 ≠ [] := by
      intro h
      subst h
      simp only [List.length_nil] at hlen
      omega
    have hb48 : b ≠ 48 := stripRun_head r2 b d2 hp2 hd2ne
    have hbdig := (isDigitB_iff b).mp
      (stripRun_digits r2 hd2 b (by rw [hp2]; exact List.mem_cons_self b d2))
    have hv2 : digitVal r2 = (b - 48) * 10 ^ d2.length + digitVal d2 := by
      rw [← digitVal_stripRun r2, hp2, digitVal_cons]
    have hv1lt : digitVal r1 < 10 ^ (stripRun r1).length := by
      rw [← digitVal_stripRun r1]
      exact digitVal_lt _ (stripRun_digits r1 hd1)
    have hpow : 10 ^ (stripRun r1).length ≤ 10 ^ d2.length :=
      Nat.pow_le_pow_right (by norm_num) (by omega)
    have hge : 10 ^ d2.length ≤ (b - 48) * 10 ^ d2.length :=
      Nat.le_mul_of_pos_left _ (by omega)
    omega

theorem digitVal_lt_of_head_lt (a b : Nat) (t1 t2 : List Nat)
    (hd1 : ∀ c ∈ t1, isDigitB c = true) (ha : 48 ≤ a)
    (hlen : t1.length = t2.length) (hab : a < b) :
    digitVal (a :: t1) < digitVal (b :: t2) := by
  rw [digitVal_cons, digitVal_cons, hlen]
  have hv1 : digitVal t1 < 10 ^ t2.length := by
    rw [← hlen]
    exact digitVal_lt t1 hd1
  calc (a - 48) * 10 ^ t2.length + digitVal t1
      < (a - 48) * 10 ^ t2.length + 10 ^ t2.length := by omega
    _ = (a - 48 + 1) * 10 ^ t2.length := by ring
    _ ≤ (b - 48) * 10 ^ t2.length := Nat.mul_le_mul_right _ (by omega)
    _ ≤ (b - 48) * 10 ^ t2.length + digitVal t2 := Nat.le_add_right _ _

theorem firstDiffB_cons_cons (a b : Nat) (t1 t2 : List Nat) :
    firstDiffB (a :: t1) (b :: t2)
      = if a ≠ b then (a : Int) - (b : Int) else firstDiffB t1 t2 := rfl

theorem firstDiffB_eqlen (d1 : List Nat) : ∀ (d2 : List Nat),
    (∀ c ∈ d1, isDigitB c = true) → (∀ c ∈ d2, isDigitB c = true) →
    d1.length = d2.length →
    (firstDiffB d1 d2 = 0 ↔ d1 = d2)
    ∧ (firstDiffB d1 d2 < 0 ↔ digitVal d1 < digitVal d2) := by
  induction d1 with
  | nil =>
    intro d2 _ _ hlen
    cases d2 with
    | nil => exact ⟨by simp [firstDiffB], by simp [firstDiffB]⟩
    | cons b t2 => simp at hlen
  | cons a t1 ih =>
    intro d2 hd1 hd2 hlen
    cases d2 with
    | nil => simp at hlen
    | cons b t2 =>
      simp only [List.length_cons, Nat.add_right_cancel_iff] at hlen
      have ha := (isDigitB_iff a).mp (hd1 a (by simp))
      have hb := (isDigitB_iff b).mp (hd2 b (by simp))
      have hdt1 : ∀ c ∈ t1, isDigitB c = true :=
        fun c hc => hd1 c (List.mem_cons_of_mem a hc)
      have hdt2 : ∀ c ∈ t2, isDigitB c = true :=
        fun c hc => hd2 c (List.mem_cons_of_mem b hc)
      rw [firstDiffB_cons_cons]
      by_cases hab : a = b
      · subst hab
        rw [if_neg (not_not_intro rfl)]
        obtain ⟨ih1, ih2⟩ := ih t2 hdt1 hdt2 hlen
        constructor
        · rw [ih1]
          simp
        · rw [ih2, digitVal_cons, digitVal_cons, hlen]
          omega
      · rw [if_pos hab]
        have hne : (a : Int) - b ≠ 0 := by
          intro h
          apply hab
          omega
        constructor
        · refine ⟨fun h => absurd h hne, fun h => ?_⟩
          simp only [List.cons.injEq] at h
          exact absurd h.1 hab
        · rcases Nat.lt_or_ge a b with h2 | h2
          · refine ⟨fun _ => ?_, fun _ => by omega⟩
            exact digitVal_lt_of_head_lt a b t1 t2 hdt1 ha.1 hlen h2
          · have hba : b < a := by omega
            refine ⟨fun h => absurd h (by omega), fun h => ?_⟩
            have := digitVal_lt_of_head_lt b a t2 t1 hdt2 hb.1 hlen.symm hba
            omega

theorem firstDiffB_swap (d1 : List Nat) : ∀ d2 : List Nat,
    firstDiffB d1 d2 = -firstDiffB d2 d1 := by
  induction d1 with
  | nil =>
    intro d2
    cases d2 with
    | nil => simp [firstDiffB]
    | cons b t2 => simp [firstDiffB]
  | cons a t1 ih =>
    intro d2
    cases d2 with
    | nil => simp [firstDiffB]
    | cons b t2 =>
      rw [firstDiffB_cons_cons, firstDiffB_cons_cons]
      by_cases hab : a = b
      · subst hab
        rw [if_neg (not_not_intro rfl), if_neg (not_not_intro rfl)]
        exact ih t2
      · rw [if_pos hab, if_pos (fun h => hab h.symm)]
        ring

theorem stripRun_inj (r1 r2 : List Nat)
    (hd1 : ∀ c ∈ r1, isDigitB c = true) (hd2 : ∀ c ∈ r2, isDigitB c = true)
    (hval : digitVal r1 = digitVal r2) : stripRun r1 = stripRun r2 := by
  rcases Nat.lt_trichotomy (stripRun r1).length (stripRun r2).length with hlt | heq | hgt
  · exact absurd hval (Nat.ne_of_lt (stripRun_val_lt r1 r2 hd1 hd2 hlt))
  · obtain ⟨h1, h2⟩ := firstDiffB_eqlen (stripRun r1) (stripRun r2)
      (stripRun_digits r1 hd1) (stripRun_digits r2 hd2) heq
    apply h1.mp
    rcases Int.lt_trichotomy (firstDiffB (stripRun r1) (stripRun r2)) 0 with hfd | hfd | hfd
    · have := h2.mp hfd
      rw [digitVal_stripRun, digitVal_stripRun] at this
      omega
    · exact hfd
    · obtain ⟨h1s, h2s⟩ := firstDiffB_eqlen (stripRun r2) (stripRun r1)
        (stripRun_digits r2 hd2) (stripRun_digits r1 hd1) heq.symm
      have hswap := firstDiffB_swap (stripRun r1) (stripRun r2)
      have hneg : firstDiffB (stripRun r2) (stripRun r1) < 0 := by omega
      have := h2s.mp hneg
      rw [digitVal_stripRun, digitVal_stripRun] at this
      omega
  · exact absurd hval.symm (Nat.ne_of_lt (stripRun_val_lt r2 r1 hd2 hd1 hgt))

/-- On strings without digits, the strcmp_natural loop behaves exactly as the
strcmp_default loop. -/
theorem snGo_eq_sdGo_nodigit (l1 : List Nat) : ∀ (l2 : List Nat) (t : Int),
    (∀ c ∈ l1, isDigitB c = false) → snGo l1 l2 t = sdGo l1 l2 t := by
  induction l1 with
  | nil =>
    intro l2 t _
    have hnd : ¬(isDigitB (byteAt ([] : List Nat)) = true ∧ isDigitB (byteAt l2) = true) := by
      intro hc
      exact absurd hc.1 (by decide)
    rw [snGo_nondigit [] l2 t hnd, sdGo_step [] l2 t]
    simp [byteAt]
  | cons a t1 ih =>
    intro l2 t h
    have hnd : ¬(isDigitB (byteAt (a :: t1)) = true ∧ isDigitB (byteAt l2) = true) := by
      intro hc
      have ha := h a (by simp)
      have : byteAt (a :: t1) = a := rfl
      rw [this, ha] at hc
      exact absurd hc.1 (by simp)
    rw [snGo_nondigit _ _ _ hnd, sdGo_step]
    by_cases hm : byteAt (a :: t1) ≠ byteAt l2 ∧ tolowerB (byteAt (a :: t1)) ≠ tolowerB (byteAt l2)
    · rw [if_pos hm, if_pos hm]
    · rw [if_neg hm, if_neg hm]
      by_cases hcont : byteAt (a :: t1).tail ≠ 0 ∧ byteAt l2.tail ≠ 0
      · rw [if_pos hcont, if_pos hcont]
        exact ih l2.tail _ (fun c hc => h c (List.mem_cons_of_mem a hc))
      · rw [if_neg hcont, if_neg hcont]

/-- C7: when both strings start with digits, strcmp_natural compares the two
maximal digit runs as unsigned integers (leading zeroes stripped); on equal
magnitude (where the stripped runs necessarily coincide literally), the run
with more leading zeroes sorts first; on strings without digits it coincides
with strcmp_default; and {"file2","file07","file7","file10"} orders as
file2, file07, file7, file10. -/
theorem claim_C7_natural_comparator (s1 s2 : List Nat) :
    (isDigitB (byteAt s1) = true → isDigitB (byteAt s2) = true →
      digitVal (s1.takeWhile isDigitB) ≠ digitVal (s2.takeWhile isDigitB) →
      (strcmp_natural s1 s2 < 0
        ↔ digitVal (s1.takeWhile isDigitB) < digitVal (s2.takeWhile isDigitB)))
    ∧ (isDigitB (byteAt s1) = true → isDigitB (byteAt s2) = true →
      digitVal (s1.takeWhile isDigitB) = digitVal (s2.takeWhile isDigitB) →
      (s1.takeWhile isDigitB).length ≠ (s2.takeWhile isDigitB).length →
      strcmp_natural s1 s2
        = ((s2.takeWhile isDigitB).length : Int) - ((s1.takeWhile isDigitB).length : Int))
    ∧ ((∀ c ∈ s1, isDigitB c = false) → strcmp_natural s1 s2 = strcmp_default s1 s2)
    ∧ (strcmp_natural [102, 105, 108, 101, 50] [102, 105, 108, 101, 48, 55] < 0
       ∧ strcmp_natural [102, 105, 108, 101, 48, 55] [102, 105, 108, 101, 55] < 0
       ∧ strcmp_natural [102, 105, 108, 101, 55] [102, 105, 108, 101, 49, 48] < 0) := by
  refine ⟨?_, ?_, ?_, ?_, ?_, ?_⟩
  · intro hd1 hd2 hvne
    have hdig1 : ∀ c ∈ s1.takeWhile isDigitB, isDigitB c = true :=
      fun c hc => List.mem_takeWhile_imp hc
    have hdig2 : ∀ c ∈ s2.takeWhile isDigitB, isDigitB c = true :=
      fun c hc => List.mem_takeWhile_imp hc
    unfold strcmp_natural
    rw [snGo_digit s1 s2 0 ⟨hd1, hd2⟩]
    rcases Nat.lt_trichotomy (stripRun (s1.takeWhile isDigitB)).length
        (stripRun (s2.takeWhile isDigitB)).length with hlt | heq | hgt
    · rw [if_pos (Nat.ne_of_lt hlt)]
      have hv := stripRun_val_lt _ _ hdig1 hdig2 hlt
      exact ⟨fun _ => hv, fun _ => by omega⟩
    · rw [if_neg (by omega)]
      obtain ⟨hfd0, hfdlt⟩ := firstDiffB_eqlen (stripRun (s1.takeWhile isDigitB))
        (stripRun (s2.takeWhile isDigitB)) (stripRun_digits _ hdig1)
        (stripRun_digits _ hdig2) heq
      have hfdne : firstDiffB (stripRun (s1.takeWhile isDigitB))
          (stripRun (s2.takeWhile isDigitB)) ≠ 0 := by
        intro h0
        apply hvne
        rw [← digitVal_stripRun (s1.takeWhile isDigitB),
          ← digitVal_stripRun (s2.takeWhile isDigitB), hfd0.mp h0]
      rw [if_pos hfdne]
      rw [digitVal_stripRun, digitVal_stripRun] at hfdlt
      exact hfdlt
    · rw [if_pos (Nat.ne_of_gt hgt)]
      have hv := stripRun_val_lt _ _ hdig2 hdig1 hgt
      exact ⟨fun hcon => absurd hcon (by omega), fun hcon => absurd hcon (by omega)⟩
  · intro hd1 hd2 hval hrlen
    have hdig1 : ∀ c ∈ s1.takeWhile isDigitB, isDigitB c = true :=
      fun c hc => List.mem_takeWhile_imp hc
    have hdig2 : ∀ c ∈ s2.takeWhile isDigitB, isDigitB c = true :=
      fun c hc => List.mem_takeWhile_imp hc
    have hpp := stripRun_inj _ _ hdig1 hdig2 hval
    unfold strcmp_natural
    rw [snGo_digit s1 s2 0 ⟨hd1, hd2⟩]
    rw [if_neg (by rw [hpp]; omega)]
    have hfd0 : firstDiffB (stripRun (s1.takeWhile isDigitB))
        (stripRun (s2.takeWhile isDigitB)) = 0 := by
      rw [hpp]
      exact (firstDiffB_eqlen _ _ (stripRun_digits _ hdig2) (stripRun_digits _ hdig2)
        rfl).1.mpr rfl
    rw [if_neg (not_not_intro hfd0), if_pos hrlen]
  · intro h
    unfold strcmp_natural strcmp_default
    exact snGo_eq_sdGo_nodigit s1 s2 0 h
  · simp [strcmp_natural, snGo, byteAt, isDigitB, tolowerB, stripRun, firstDiffB]
  · simp [strcmp_natural, snGo, byteAt, isDigitB, tolowerB, stripRun, firstDiffB]
  · simp [strcmp_natural, snGo, byteAt, isDigitB, tolowerB, stripRun, firstDiffB]

theorem claim_C7_witness :
    isDigitB (byteAt [50]) = true
    ∧ (strcmp_natural [50] [49, 48] < 0 ↔ digitVal [50] < digitVal [49, 48])
    ∧ strcmp_natural [48, 55] [55] = ((1 : Nat) : Int) - ((2 : Nat) : Int)
    ∧ strcmp_natural [97, 98] [98, 97] = strcmp_default [97, 98] [98, 97] := by
  refine ⟨by decide, ?_, ?_, ?_⟩
  · have h := (claim_C7_natural_comparator [50] [49, 48]).1 (by decide) (by decide) (by decide)
    simpa using h
  · have h := (claim_C7_natural_comparator [48, 55] [55]).2.1 (by decide) (by decide)
      (by decide) (by decide)
    simpa using h
  · exact (claim_C7_natural_comparator [97, 98] [98, 97]).2.2.1 (by decide)

end FileList
